import Mathlib

/-!
# Verification of the invoicer repository's client/project store and billing calculator

Shallow embedding of the Python sources (`src/invoicer/client_manager.py`,
`src/invoicer/models.py`, `src/invoicer/invoice_generator.py`,
`src/invoicer/main.py`) into Lean 4.

Modelling conventions:
* Python `str` values are Lean `String`s; character-level operations
  (`lower`, `upper`, `strip`, regex character classes) are modelled over the
  ASCII range, which is the range exercised by the program's identifiers.
* `datetime.now()` is passed in explicitly as a `Nat` timestamp parameter.
* Python `float` amounts are modelled as exact rationals `ℚ`; Python's
  `round(x, 2)` (round-half-to-even) is modelled exactly by `round2`.
* The filesystem owned by `ClientManager` is modelled as the clients root
  directory plus an association list of its subdirectories; the root is kept
  explicit because `pathlib` collapses `clients_dir / ""` to `clients_dir`,
  so the empty client id (slug of an all-non-alphanumeric name) reads and
  writes the root's own files.  `pydantic` validation is modelled by
  `Option`-valued smart constructors translated validator-by-validator from
  `models.py`.
* `pydantic.EmailStr` delegates to the external `email-validator` package;
  it is modelled as an opaque-to-us boolean parameter `emailOk` (the spec
  itself declares e-mail validation a collaborator's concern), assumed to
  accept a plain address unchanged.
-/

/-! ## Decimal rendering of naturals (Python `f"{n}"` / `f"{n:03d}"`) -/

/-- The decimal digit character for `d` (`0 ≤ d ≤ 9`). -/
def decDigit (d : Nat) : Char := Char.ofNat (48 + d)

/-- Fuel-bounded digit accumulation; `natDec` supplies enough fuel, so the
`fuel = 0` branch is unreachable (see `natDecAux_fuel`). -/
def natDecAux : Nat → Nat → List Char
  | 0, _ => []
  | fuel + 1, n =>
    if n < 10 then [decDigit n]
    else natDecAux fuel (n / 10) ++ [decDigit (n % 10)]

/-- Decimal rendering of a natural number, as Python's `str(n)` produces. -/
def natDec (n : Nat) : List Char := natDecAux (n + 1) n

theorem natDecAux_fuel :
    ∀ n f f', n < f → n < f' → natDecAux f n = natDecAux f' n := by
  intro n
  induction n using Nat.strong_induction_on with
  | _ n ih =>
    intro f f' hf hf'
    match f, f' with
    | fuel + 1, fuel' + 1 =>
      simp only [natDecAux]
      by_cases h10 : n < 10
      · simp [h10]
      · have hdiv : n / 10 < n := Nat.div_lt_self (by omega) (by omega)
        simp only [h10, if_false]
        rw [ih (n / 10) hdiv fuel fuel' (by omega) (by omega)]

/-- The recursion equation Python's `str` satisfies. -/
theorem natDec_eq (n : Nat) :
    natDec n = if n < 10 then [decDigit n]
               else natDec (n / 10) ++ [decDigit (n % 10)] := by
  show natDecAux (n + 1) n = _
  rw [natDecAux]
  by_cases h10 : n < 10
  · simp [h10]
  · have hdiv : n / 10 < n := Nat.div_lt_self (by omega) (by omega)
    simp only [h10, if_false]
    rw [natDecAux_fuel (n / 10) n (n / 10 + 1) hdiv (by omega)]
    rfl

/-- `str(n)` as a Lean `String`. -/
def natDecStr (n : Nat) : String := String.mk (natDec n)

/-- Python's `f"{n:03d}"`: decimal rendering left-padded with zeros to width 3. -/
def pad3 (n : Nat) : String :=
  let s := natDec n
  if s.length < 3 then String.mk (List.replicate (3 - s.length) '0' ++ s)
  else String.mk s

theorem decDigit_inj {a b : Nat} (ha : a < 10) (hb : b < 10)
    (h : decDigit a = decDigit b) : a = b := by
  interval_cases a <;> interval_cases b <;> simp_all [decDigit]

theorem natDec_ne_nil (n : Nat) : natDec n ≠ [] := by
  rw [natDec_eq]
  split <;> simp

theorem natDec_inj : ∀ {m n : Nat}, natDec m = natDec n → m = n := by
  intro m
  induction m using Nat.strong_induction_on with
  | _ m ih =>
    intro n h
    rw [natDec_eq m, natDec_eq n] at h
    by_cases hm : m < 10 <;> by_cases hn : n < 10
    · simp only [hm, hn, if_pos] at h
      exact decDigit_inj hm hn (List.cons.injEq .. ▸ h).1
    · simp only [hm, hn, if_pos, if_neg, not_false_iff] at h
      have hlen := congrArg List.length h
      simp at hlen
      have h1 := natDec_ne_nil (n / 10)
      cases hx : natDec (n / 10) with
      | nil => exact absurd hx h1
      | cons a l => rw [hx] at hlen; simp at hlen
    · simp only [hm, hn, if_pos, if_neg, not_false_iff] at h
      have hlen := congrArg List.length h
      simp at hlen
      have h1 := natDec_ne_nil (m / 10)
      cases hx : natDec (m / 10) with
      | nil => exact absurd hx h1
      | cons a l => rw [hx] at hlen; simp at hlen
    · simp only [hm, hn, if_neg, not_false_iff] at h
      obtain ⟨hq, hr⟩ := List.append_inj' h (by simp)
      have hq' : m / 10 = n / 10 :=
        ih (m / 10) (Nat.div_lt_self (by omega) (by omega)) hq
      have hr' : m % 10 = n % 10 := by
        have := (List.cons.injEq .. ▸ hr).1
        exact decDigit_inj (Nat.mod_lt _ (by omega)) (Nat.mod_lt _ (by omega)) this
      omega

theorem natDecStr_inj {m n : Nat} (h : natDecStr m = natDecStr n) : m = n :=
  natDec_inj (by simpa [natDecStr] using congrArg String.data h)

/-! ## Python string helpers -/

/-- Python `str.strip()` on a character list (ASCII whitespace). -/
def stripChars (l : List Char) : List Char :=
  ((l.dropWhile Char.isWhitespace).reverse.dropWhile Char.isWhitespace).reverse

/-- Python `str.strip()`. -/
def pyStrip (s : String) : String := String.mk (stripChars s.data)

/-- Python `str.upper()` (ASCII). -/
def pyUpper (s : String) : String := String.mk (s.data.map Char.toUpper)

/-- Python `str.lower()` (ASCII). -/
def pyLower (s : String) : String := String.mk (s.data.map Char.toLower)

/-- Python `name[:3]`. -/
def pyTake3 (s : String) : String := String.mk (s.data.take 3)

/-- One step of `re.sub(r"[^a-zA-Z0-9]", "_", ·)`: every character outside
`[a-zA-Z0-9]` becomes an underscore. -/
def underscoreNonAlnum (c : Char) : Char := if c.isAlphanum then c else '_'

/-- `re.sub(r"_+", "_", ·)`: collapse each run of underscores to one. -/
def collapseUnderscores : List Char → List Char
  | [] => []
  | [c] => [c]
  | a :: b :: rest =>
    if a = '_' && b = '_' then collapseUnderscores (b :: rest)
    else a :: collapseUnderscores (b :: rest)

/-- Python `str.strip("_")`. -/
def stripUnderscores (l : List Char) : List Char :=
  ((l.dropWhile (· = '_')).reverse.dropWhile (· = '_')).reverse

/-- The slug computed by `ClientManager._generate_client_id` /
`_generate_project_id` before collision handling: lowercase, replace runs of
non-alphanumeric characters by a single underscore, strip leading/trailing
underscores. -/
def slugify (name : String) : String :=
  String.mk (stripUnderscores (collapseUnderscores
    ((name.data.map Char.toLower).map underscoreNonAlnum)))

example : slugify "Acme Corporation" = "acme_corporation" := by decide
example : slugify "  Tech-Start  9!" = "tech_start_9" := by decide
example : pad3 7 = "007" := by decide
example : natDecStr 120 = "120" := by decide

/-! ## The numeric-suffix collision loop -/

/-- The collision loop shared by `ClientManager._generate_client_id` and
`ClientManager._generate_project_id`:
`while cur in taken: cur = f"{orig}_{counter}"; counter += 1`.
The Python loop is unbounded; the model bounds it with `fuel`.  With
`taken.length + 1` fuel a free candidate is always reached
(`suffixLoop_not_mem`), so the bounded loop agrees with the source. -/
def suffixLoop (taken : List String) (orig : String) : String → Nat → Nat → String
  | cur, _, 0 => cur
  | cur, counter, fuel + 1 =>
    if cur ∈ taken then
      suffixLoop taken orig (orig ++ "_" ++ natDecStr counter) (counter + 1) fuel
    else cur

theorem strAppend_data (a b : String) : (a ++ b).data = a.data ++ b.data := rfl

theorem suffix_candidate_inj (orig : String) {j k : Nat}
    (h : orig ++ "_" ++ natDecStr j = orig ++ "_" ++ natDecStr k) : j = k := by
  have hd := congrArg String.data h
  simp only [strAppend_data, List.append_assoc] at hd
  have := List.append_cancel_left hd
  have := List.append_cancel_left this
  exact natDecStr_inj (congrArg String.mk this)

/-- Among any `taken.length + 1` consecutive suffix candidates one is free. -/
theorem suffix_candidate_exists (taken : List String) (orig : String)
    (counter : Nat) :
    ∃ k, counter ≤ k ∧ k < counter + (taken.length + 1) ∧
      orig ++ "_" ++ natDecStr k ∉ taken := by
  by_contra hall
  push_neg at hall
  set f : Nat → String := fun k => orig ++ "_" ++ natDecStr k with hf
  have hinj : Function.Injective f := fun a b hab => suffix_candidate_inj orig hab
  set l : List String := (List.range' counter (taken.length + 1)).map f with hl
  have hnodup : l.Nodup := List.Nodup.map hinj (List.nodup_range' counter (taken.length + 1))
  have hsub : l ⊆ taken := by
    intro x hx
    rw [hl, List.mem_map] at hx
    obtain ⟨k, hk, rfl⟩ := hx
    rw [List.mem_range'_1] at hk
    exact hall k hk.1 (by omega)
  have hlen : l.length = taken.length + 1 := by simp [hl]
  have hcard1 : l.toFinset.card = l.length := List.toFinset_card_of_nodup hnodup
  have hcard2 : l.toFinset ⊆ taken.toFinset := by
    intro x hx
    rw [List.mem_toFinset] at hx ⊢
    exact hsub hx
  have hcard3 : taken.toFinset.card ≤ taken.length := List.toFinset_card_le taken
  have := Finset.card_le_card hcard2
  omega

/-- Run with enough fuel, the loop returns a candidate outside `taken`. -/
theorem suffixLoop_spec (taken : List String) (orig : String) :
    ∀ fuel cur counter,
      (cur ∉ taken ∨ ∃ k, counter ≤ k ∧ k < counter + fuel ∧
        orig ++ "_" ++ natDecStr k ∉ taken) →
      suffixLoop taken orig cur counter fuel ∉ taken := by
  intro fuel
  induction fuel with
  | zero =>
    intro cur counter h
    rcases h with h | ⟨k, h1, h2, _⟩
    · simpa [suffixLoop] using h
    · omega
  | succ fuel ih =>
    intro cur counter h
    rw [suffixLoop]
    by_cases hcur : cur ∈ taken
    · simp only [hcur, if_pos]
      rcases h with h | ⟨k, h1, h2, h3⟩
      · exact absurd hcur h
      · rcases Nat.eq_or_lt_of_le h1 with rfl | hlt
        · exact ih _ _ (Or.inl h3)
        · exact ih _ _ (Or.inr ⟨k, by omega, by omega, h3⟩)
    · simp [hcur]

theorem suffixLoop_not_mem (taken : List String) (orig cur : String) :
    suffixLoop taken orig cur 1 (taken.length + 1) ∉ taken :=
  suffixLoop_spec taken orig _ cur 1
    (Or.inr (suffix_candidate_exists taken orig 1))

/-- Every loop output is either the starting candidate or the base extended
with `"_k"` for some `k ≥ counter`. -/
theorem suffixLoop_shape (taken : List String) (orig : String) :
    ∀ fuel cur counter,
      suffixLoop taken orig cur counter fuel = cur ∨
      ∃ k, counter ≤ k ∧
        suffixLoop taken orig cur counter fuel = orig ++ "_" ++ natDecStr k := by
  intro fuel
  induction fuel with
  | zero => intro cur counter; left; rfl
  | succ fuel ih =>
    intro cur counter
    rw [suffixLoop]
    by_cases hcur : cur ∈ taken
    · simp only [hcur, if_pos]
      rcases ih (orig ++ "_" ++ natDecStr counter) (counter + 1) with h | ⟨k, hk, h⟩
      · exact Or.inr ⟨counter, le_refl _, h⟩
      · exact Or.inr ⟨k, by omega, h⟩
    · simp [hcur]

/-! ## Association-list primitives for the on-disk directory tree -/

/-- Lookup by key (first match), the model of resolving a path. -/
def alGet {α : Type} : List (String × α) → String → Option α
  | [], _ => none
  | (k, v) :: rest, key => if k = key then some v else alGet rest key

/-- Write: replace the first entry with this key, or append a new entry —
the model of writing a file (or `mkdir` + write) at a path. -/
def alSet {α : Type} : List (String × α) → String → α → List (String × α)
  | [], key, v => [(key, v)]
  | (k, w) :: rest, key, v =>
    if k = key then (key, v) :: rest else (k, w) :: alSet rest key v

/-- Delete all entries with this key — the model of `shutil.rmtree` /
`Path.unlink`. -/
def alDel {α : Type} : List (String × α) → String → List (String × α)
  | [], _ => []
  | (k, v) :: rest, key =>
    if k = key then alDel rest key else (k, v) :: alDel rest key

/-! ## Data model (`models.py`) -/

/-- `ClientModel` from `models.py`, field for field.  Note the class has NO
`vat_number` field even though `add_client` passes one — pydantic's default
`extra='ignore'` configuration silently drops unknown constructor keys. -/
structure ClientModel where
  id : String
  name : String
  email : String
  client_code : String
  address : String
  phone : String
  notes : String
  created_date : Nat
  last_invoice_date : Option Nat
  total_invoices : Int
  total_amount : ℚ
deriving DecidableEq

/-- Constructing `ClientModel(...)`: pydantic checks each field's `Field`
constraints and then its `@field_validator` (`validate_name` strips the name
and rejects blank ones, `validate_client_code` uppercases).  Any failure
raises `ValidationError`, modelled as `none`. -/
def mkClientModel (emailOk : String → Bool)
    (id name email client_code address phone notes : String)
    (created_date : Nat) (last_invoice_date : Option Nat)
    (total_invoices : Int) (total_amount : ℚ) : Option ClientModel :=
  if name.length < 1 then none
  else if pyStrip name = "" then none
  else if ¬ emailOk email then none
  else if client_code.length < 1 then none
  else if 10 < client_code.length then none
  else if total_invoices < 0 then none
  else if total_amount < 0 then none
  else some ⟨id, pyStrip name, email, pyUpper client_code, address, phone,
    notes, created_date, last_invoice_date, total_invoices, total_amount⟩

/-- Modelled from the spec: `ProjectModel` is imported by `client_manager.py`
from `models.py`, but its definition is absent from the source tree.
Spec §3 "Project" lists the attributes `id`, `name`, `client_id`,
`created_date` and states no further field constraints. -/
structure ProjectModel where
  id : String
  name : String
  client_id : String
  created_date : Nat
deriving DecidableEq

/-! ## The on-disk store and the in-memory index (`client_manager.py`) -/

/-- A client's `client.json` as found on disk: `valid c` is a file holding a
serialized `ClientModel` (the only thing the manager itself writes; such
files never contain the legacy `company` key, so `get_client`'s
compatibility munging is a no-op on them); `corrupt` models a file whose
load fails (the `json.JSONDecodeError` / `ValidationError` paths). -/
inductive DiskFile where
  | valid (c : ClientModel)
  | corrupt
deriving DecidableEq

/-- A client directory `<clients-root>/<id>/`: at most one `client.json`
plus project files `project_<local>.json` keyed by their local name
component.  Corrupt project files (skipped wherever they are read) are not
modelled. -/
structure ClientDir where
  clientFile : Option DiskFile
  projects : List (String × ProjectModel)
deriving DecidableEq

/-- One entry of the in-memory index built by `_build_index_from_files`
(the index dict's `last_updated`/`version` metadata carries no client data
and is omitted).  `vat_number` is read via
`client_data.get("vat_number", "")`, but a `client.json` written by the
manager never contains that key — `ClientModel` has no such field — so the
entry always records the default `""`. -/
structure IndexEntry where
  name : String
  email : String
  client_code : String
  vat_number : String
  created_date : Nat
  last_invoice_date : Option Nat
  total_invoices : Int
deriving DecidableEq

/-- Python `str.startswith('.')`. -/
def startsWithDot (s : String) : Bool :=
  match s.data with
  | c :: _ => c == '.'
  | [] => false

def indexEntryOf (c : ClientModel) : IndexEntry :=
  ⟨c.name, c.email, c.client_code, "", c.created_date, c.last_invoice_date,
    c.total_invoices⟩

/-- `ClientManager._build_index_from_files`: iterate the entries of the
clients root with `iterdir()`, skipping non-directories, dot-directories,
directories without a `client.json`, and files that fail to load.  Only the
subdirectory listing `dirs` is walked — the root's own `client.json` (where
a client with the empty id is stored) is never indexed, and a subdirectory
cannot be named `""`, so the empty id never appears among the keys. -/
def buildIndex (dirs : List (String × ClientDir)) : List (String × IndexEntry) :=
  dirs.filterMap fun p =>
    if startsWithDot p.1 then none
    else match p.2.clientFile with
      | some (DiskFile.valid c) => some (p.1, indexEntryOf c)
      | _ => none

/-- `ClientManager` state: the clients root directory, its subdirectories,
and the in-memory index (`self.index["clients"]`).  `root` is the clients
root directory itself: `pathlib` collapses `Path(clients_dir) / ""` to
`clients_dir`, so the empty client id — which `_generate_client_id`
produces for an all-non-alphanumeric name — resolves to the root, and the
root's own `client.json` and `project_*.json` files must be modelled.
`_build_index_from_files` iterates only the subdirectories, so a record
written at the root is never indexed. -/
structure MState where
  root : ClientDir
  dirs : List (String × ClientDir)
  index : List (String × IndexEntry)
deriving DecidableEq

/-- Resolve `self.clients_dir / client_id` to a directory: the empty id
collapses to the clients root (which always exists — `__init__` creates
it); any other id denotes the subdirectory of that name, when present.
(Ids containing path separators cannot be produced by the id generator and
are not modelled.) -/
def clientDirOf (st : MState) (client_id : String) : Option ClientDir :=
  if client_id = "" then some st.root else alGet st.dirs client_id

def indexKeys (st : MState) : List String := st.index.map Prod.fst

/-- `ClientManager._generate_client_id`: slug the name, then append `_1`,
`_2`, … while the candidate is a key of the in-memory index. -/
def generateClientId (st : MState) (client_name : String) : String :=
  let slug := slugify client_name
  suffixLoop (indexKeys st) slug slug 1 ((indexKeys st).length + 1)

deriving instance DecidableEq for Except

/-- `ClientManager.get_client`: `.error` models the `ValueError` raised in
strict mode when `client.json` does not exist; every load failure of an
existing file yields `.ok none` (the `except` clauses), regardless of
`raise_if_not_found`. -/
def getClient (st : MState) (client_id : String)
    (raiseIfMissing : Bool) : Except String (Option ClientModel) :=
  match (clientDirOf st client_id).bind ClientDir.clientFile with
  | none =>
    if raiseIfMissing then
      Except.error ("Client with ID '" ++ client_id ++ "' not found.")
    else Except.ok none
  | some (DiskFile.valid c) => Except.ok (some c)
  | some DiskFile.corrupt => Except.ok none

/-- The `client_data` dict accepted by `add_client`; `none` models an absent
key (the `dict.get` defaults). -/
structure ClientInput where
  name : String
  email : String
  address : Option String := none
  phone : Option String := none
  client_code : Option String := none
  vat_number : Option String := none
  notes : Option String := none
deriving DecidableEq

/-- Write `client.json` for `client_id`: `mkdir(exist_ok=True)` plus
`write_text`.  The empty id resolves to the clients root, so the record
lands at `clients_dir/client.json` and no subdirectory is created; a
nonempty id writes into its subdirectory, creating it when needed and
keeping any project files already inside it.  Returns the new root and
subdirectory listing. -/
def writeClientFile (root : ClientDir) (dirs : List (String × ClientDir))
    (client_id : String) (f : DiskFile) :
    ClientDir × List (String × ClientDir) :=
  if client_id = "" then ({ root with clientFile := some f }, dirs)
  else
    match alGet dirs client_id with
    | some d => (root, alSet dirs client_id { d with clientFile := some f })
    | none => (root, dirs ++ [(client_id, ⟨some f, []⟩)])

/-- `ClientManager.add_client`.  Returns the new state with the generated
id, or the unchanged state and `none` when `ClientModel(...)` raises
`ValidationError` (the exception propagates before anything is written).
The source passes `vat_number=client_data.get("vat_number", "")` to the
constructor, but `ClientModel` has no such field, so the value does not
appear here: pydantic drops it. -/
def addClient (emailOk : String → Bool) (st : MState) (cd : ClientInput)
    (now : Nat) : MState × Option String :=
  let client_id := generateClientId st cd.name
  match mkClientModel emailOk client_id cd.name cd.email
      (cd.client_code.getD (pyUpper (pyTake3 cd.name)))
      (cd.address.getD "") (cd.phone.getD "") (cd.notes.getD "")
      now none 0 0 with
  | none => (st, none)
  | some c =>
    let rd := writeClientFile st.root st.dirs client_id (DiskFile.valid c)
    ({ root := rd.1, dirs := rd.2, index := buildIndex rd.2 }, some client_id)

/-- `ClientManager.delete_client`: remove the whole directory if it exists,
then rebuild the index.  For the empty id the directory is the clients
root itself, which always exists: `shutil.rmtree` removes the entire store
and the subsequent `_update_index` raises `FileNotFoundError` while
iterating the now-missing root, so the method never returns — modelled by
the `.error` outcome (the returned state records the wiped disk and the
stale index left behind by the aborted rebuild). -/
def deleteClient (st : MState) (client_id : String) :
    MState × Except String Bool :=
  if client_id = "" then
    (⟨⟨none, []⟩, [], st.index⟩, Except.error "FileNotFoundError")
  else
    match alGet st.dirs client_id with
    | none => (st, Except.ok false)
    | some _ =>
      let dirs' := alDel st.dirs client_id
      ({ root := st.root, dirs := dirs', index := buildIndex dirs' },
        Except.ok true)

/-- The `updates` dict of `update_client`; `none` models an absent key.
`id` and `created_date` keys are accepted but skipped by the merge loop.
A `vat_number` key is merged into the dict and counts for the
index-rebuild check, but the merged value is then discarded by
`ClientModel(**current_data)` (no such model field). -/
structure ClientUpdate where
  id : Option String := none
  name : Option String := none
  email : Option String := none
  client_code : Option String := none
  address : Option String := none
  phone : Option String := none
  notes : Option String := none
  vat_number : Option String := none
  created_date : Option Nat := none
  last_invoice_date : Option (Option Nat) := none
  total_invoices : Option Int := none
  total_amount : Option ℚ := none
deriving DecidableEq

/-- `ClientManager.update_client`: load, merge everything except
`id`/`created_date`, re-validate, write only on success, and rebuild the
index only when a name/email/client_code/vat_number key was present. -/
def updateClient (emailOk : String → Bool) (st : MState) (client_id : String)
    (updates : ClientUpdate) : MState × Bool :=
  match getClient st client_id false with
  | Except.ok (some c) =>
    match mkClientModel emailOk c.id
        (updates.name.getD c.name) (updates.email.getD c.email)
        (updates.client_code.getD c.client_code)
        (updates.address.getD c.address) (updates.phone.getD c.phone)
        (updates.notes.getD c.notes) c.created_date
        (updates.last_invoice_date.getD c.last_invoice_date)
        (updates.total_invoices.getD c.total_invoices)
        (updates.total_amount.getD c.total_amount) with
    | none => (st, false)
    | some c' =>
      let rd := writeClientFile st.root st.dirs client_id (DiskFile.valid c')
      let rebuild := updates.name.isSome || updates.email.isSome ||
        updates.client_code.isSome || updates.vat_number.isSome
      ({ root := rd.1, dirs := rd.2,
         index := if rebuild then buildIndex rd.2 else st.index }, true)
  | _ => (st, false)

/-- `ClientManager.record_invoice`.  The method itself returns `None`; the
second component is `false` exactly when `ClientModel(**updated_data)`
raises (the only failure path, reached before any write). -/
def recordInvoice (emailOk : String → Bool) (st : MState) (client_id : String)
    (days_worked hoursPerDay hourlyRate : ℚ) (now : Nat) : MState × Bool :=
  match getClient st client_id false with
  | Except.ok (some c) =>
    let amount := days_worked * hoursPerDay * hourlyRate
    match mkClientModel emailOk c.id c.name c.email c.client_code c.address
        c.phone c.notes c.created_date (some now) (c.total_invoices + 1)
        (c.total_amount + amount) with
    | none => (st, false)
    | some c' =>
      let rd := writeClientFile st.root st.dirs client_id (DiskFile.valid c')
      ({ root := rd.1, dirs := rd.2, index := buildIndex rd.2 }, true)
  | _ => (st, true)

/-! ### Projects -/

/-- `ClientManager.list_projects` (the source also sorts by creation date,
newest first; ordering is irrelevant to the id set used by the collision
loop, which is all the claims touch). -/
def listProjects (st : MState) (client_id : String) : List ProjectModel :=
  match clientDirOf st client_id with
  | none => []
  | some d => d.projects.map Prod.snd

/-- `ClientManager._generate_project_id`: slug the project name, prefix the
client id, and run the collision loop against that client's existing
project ids (only when the client record loads). -/
def generateProjectId (st : MState) (client_id project_name : String) : String :=
  let base_id := client_id ++ "_" ++ slugify project_name
  match getClient st client_id false with
  | Except.ok (some _) =>
    let existing := (listProjects st client_id).map ProjectModel.id
    suffixLoop existing base_id base_id 1 (existing.length + 1)
  | _ => base_id

/-- Python `project_id[len(client_id) + 1 :]`. -/
def pyDropPrefix (s : String) (n : Nat) : String := String.mk (s.data.drop n)

/-- Write `project_<local>.json` inside the client's directory — the
clients root itself when the client id is empty.  The directory is known
to exist when this is reached (the client record was just loaded from
it). -/
def writeProjectFile (root : ClientDir) (dirs : List (String × ClientDir))
    (client_id localName : String) (p : ProjectModel) :
    ClientDir × List (String × ClientDir) :=
  if client_id = "" then
    ({ root with projects := alSet root.projects localName p }, dirs)
  else
    match alGet dirs client_id with
    | some d =>
      (root,
        alSet dirs client_id { d with projects := alSet d.projects localName p })
    | none => (root, dirs)

/-- `ClientManager.add_project`: `None` (state unchanged) when the client
does not load; otherwise write `project_<local>.json` inside the client's
directory and return the generated id.  The index is not touched (projects
are not tracked in `client.json`). -/
def addProject (st : MState) (client_id project_name : String)
    (now : Nat) : MState × Option String :=
  match getClient st client_id false with
  | Except.ok (some _) =>
    let project_id := generateProjectId st client_id project_name
    let p : ProjectModel := ⟨project_id, pyStrip project_name, client_id, now⟩
    let localName := pyDropPrefix project_id (client_id.length + 1)
    let rd := writeProjectFile st.root st.dirs client_id localName p
    ({ root := rd.1, dirs := rd.2, index := st.index }, some project_id)
  | _ => (st, none)

/-! ## Exact model of Python `round(x, 2)` (round-half-to-even) -/

/-- Round to the nearest integer, ties to the even neighbour — Python's
`round` on an exact value. -/
def roundHalfEven (x : ℚ) : ℤ :=
  let f := ⌊x⌋
  let frac := x - f
  if frac < 1/2 then f
  else if 1/2 < frac then f + 1
  else if Even f then f else f + 1

/-- Python `round(x, 2)`. -/
def round2 (x : ℚ) : ℚ := (roundHalfEven (100 * x) : ℚ) / 100

theorem roundHalfEven_dist (x : ℚ) : |(roundHalfEven x : ℚ) - x| ≤ 1/2 := by
  unfold roundHalfEven
  have h0 : (⌊x⌋ : ℚ) ≤ x := Int.floor_le x
  have h1 : x < ⌊x⌋ + 1 := Int.lt_floor_add_one x
  by_cases hlo : x - ⌊x⌋ < 1/2
  · simp only [hlo, if_pos]
    rw [abs_le]
    constructor <;> push_cast <;> linarith
  · by_cases hhi : 1/2 < x - ⌊x⌋
    · simp only [hlo, hhi, if_pos, if_neg, not_false_iff]
      rw [abs_le]
      constructor <;> push_cast <;> linarith
    · have heq : x - ⌊x⌋ = 1/2 := le_antisymm (not_lt.mp hhi) (not_lt.mp hlo)
      simp only [hlo, hhi, if_neg, not_false_iff]
      by_cases hev : Even (⌊x⌋)
      · simp only [hev, if_pos]
        rw [abs_le]
        constructor <;> push_cast <;> linarith
      · simp only [hev, if_neg, not_false_iff]
        rw [abs_le]
        constructor <;> push_cast <;> linarith

theorem round2_dist (x : ℚ) : |round2 x - x| ≤ 1/200 := by
  unfold round2
  have h := roundHalfEven_dist (100 * x)
  have : (roundHalfEven (100 * x) : ℚ) / 100 - x =
      ((roundHalfEven (100 * x) : ℚ) - 100 * x) / 100 := by ring
  rw [this, abs_div]
  rw [show |(100 : ℚ)| = 100 by norm_num]
  linarith

/-! ## Invoice value objects (`models.py`) -/

/-- `InvoiceItemModel`. -/
structure InvoiceItemModel where
  description : String
  quantity : ℚ
  unit_type : String
  rate : ℚ
  amount : ℚ
deriving DecidableEq

/-- Constructing `InvoiceItemModel(...)`: `Field` bounds first
(`description` min length 1, `quantity > 0`, `rate > 0`, `amount ≥ 0`), then
`validate_amount_matches_calculation` — fail when
`|amount - quantity*rate| > 0.01`, otherwise store `round(amount, 2)`. -/
def mkInvoiceItemModel (description : String) (quantity : ℚ)
    (unit_type : String) (rate amount : ℚ) : Option InvoiceItemModel :=
  if description.length < 1 then none
  else if ¬ 0 < quantity then none
  else if ¬ 0 < rate then none
  else if ¬ 0 ≤ amount then none
  else if ¬ |amount - quantity * rate| ≤ 1/100 then none
  else some ⟨description, quantity, unit_type, rate, round2 amount⟩

/-- `InvoiceClientInfoModel`. -/
structure InvoiceClientInfoModel where
  name : String
  email : String
  client_code : String
  address : String
  client_id : Option String
deriving DecidableEq

def mkInvoiceClientInfoModel (emailOk : String → Bool)
    (name email client_code address : String)
    (client_id : Option String) : Option InvoiceClientInfoModel :=
  if name.length < 1 then none
  else if ¬ emailOk email then none
  else if client_code.length < 1 then none
  else if 10 < client_code.length then none
  else some ⟨name, email, client_code, address, client_id⟩

/-- `InvoiceModel`.  The fields `invoice_date`, `due_date`, `payment_terms`
and `thank_you_note` (defaulted strings/datetime without validators, unused
by every claim) are omitted. -/
structure InvoiceModel where
  invoice_number : String
  client_info : InvoiceClientInfoModel
  line_items : List InvoiceItemModel
  days_worked : Option Int
  project_description : Option String
  period : Option String
  subtotal : ℚ
  tax_rate : ℚ
  tax_amount : ℚ
  total_amount : ℚ
deriving DecidableEq

/-- Sum of the (already validated, hence rounded) line-item amounts. -/
def sumAmounts (items : List InvoiceItemModel) : ℚ :=
  (items.map InvoiceItemModel.amount).sum

/-- Constructing `InvoiceModel(...)`.  pydantic validates fields in
declaration order, so `info.data` holds the already-validated (rounded)
earlier fields: `validate_subtotal_matches_line_items` compares the raw
subtotal with the rounded item amounts, `validate_tax_amount` compares the
raw tax with `round(subtotal,2) * tax_rate`, and `validate_total_amount`
compares the raw total with `round(subtotal,2) + round(tax_amount,2)`.
Each validator then stores its field rounded to 2 decimals. -/
def mkInvoiceModel (invoice_number : String)
    (client_info : InvoiceClientInfoModel)
    (line_items : List InvoiceItemModel) (days_worked : Option Int)
    (project_description period : Option String)
    (subtotal tax_rate tax_amount total_amount : ℚ) : Option InvoiceModel :=
  if invoice_number.length < 1 then none
  else if days_worked.all (fun d => decide (0 ≤ d)) = false then none
  else if ¬ 0 ≤ subtotal then none
  else if line_items ≠ [] ∧ ¬ |subtotal - sumAmounts line_items| ≤ 1/100 then none
  else
    let subtotal' := round2 subtotal
    if ¬ (0 ≤ tax_rate ∧ tax_rate ≤ 1) then none
    else if ¬ 0 ≤ tax_amount then none
    else if ¬ |tax_amount - subtotal' * tax_rate| ≤ 1/100 then none
    else
      let tax' := round2 tax_amount
      if ¬ 0 ≤ total_amount then none
      else if ¬ |total_amount - (subtotal' + tax')| ≤ 1/100 then none
      else some ⟨invoice_number, client_info, line_items, days_worked,
        project_description, period, subtotal', tax_rate, tax',
        round2 total_amount⟩

/-! ## `invoice_generator.dict_to_invoice_model` -/

/-- The `invoice_dict` consumed by `dict_to_invoice_model`; field defaults
are the `dict.get` defaults of the source.  The `invoice_date` parsing
branch (a `datetime` field without validators, unused by every claim) is
omitted. -/
structure InvoiceDict where
  invoice_number : Option String := none
  days_worked : Int := 0
  tax_rate : ℚ := 0
  project_description : Option String := none
  period : Option String := none
  client_name : Option String := none
  client_email : Option String := none
  client_code : Option String := none
  client_address : Option String := none
  client_id : Option String := none
deriving DecidableEq

/-- `dict_to_invoice_model`: compute `subtotal = days * hours/day * rate`,
`tax = subtotal * tax_rate`, `total = subtotal + tax` (unrounded — rounding
happens inside the model validators), synthesize one line item when
`days_worked > 0`, and construct the validated `InvoiceModel`.
`hoursPerDay`/`hourlyRate` are `config.HOURS_PER_DAY`/`config.HOURLY_RATE`. -/
def dictToInvoiceModel (emailOk : String → Bool)
    (hoursPerDay hourlyRate : ℚ) (d : InvoiceDict) : Option InvoiceModel :=
  let total_hours := (d.days_worked : ℚ) * hoursPerDay
  let subtotal := total_hours * hourlyRate
  let tax_amount := subtotal * d.tax_rate
  let total_amount := subtotal + tax_amount
  let lineItemsResult : Option (List InvoiceItemModel) :=
    if 0 < d.days_worked then
      (mkInvoiceItemModel
        (d.project_description.getD
          ("Consulting services for " ++ d.period.getD "this month"))
        (d.days_worked : ℚ) "days" (hourlyRate * hoursPerDay) subtotal).map
        (fun it => [it])
    else some []
  match lineItemsResult with
  | none => none
  | some line_items =>
    match mkInvoiceClientInfoModel emailOk (d.client_name.getD "Unknown Client")
        (d.client_email.getD "client@example.com") (d.client_code.getD "UNK")
        (d.client_address.getD "") d.client_id with
    | none => none
    | some ci =>
      mkInvoiceModel (d.invoice_number.getD "INV-001") ci line_items
        (some d.days_worked) d.project_description d.period
        subtotal d.tax_rate tax_amount total_amount

/-! ## Duplicate-number avoidance (`main.py`) -/

/-- `Path(settings.invoices_dir) / str(year) / client_code /
f"Invoice_{invoice_number}.pdf"`. -/
def invoicePath (invoicesDir : String) (year : Nat)
    (client_code invoice_number : String) : String :=
  invoicesDir ++ "/" ++ natDecStr year ++ "/" ++ client_code ++ "/Invoice_" ++
    invoice_number ++ ".pdf"

/-- `check_invoice_exists`, over a filesystem modelled as the list of paths
of existing files. -/
def checkInvoiceExists (fs : List String) (invoicesDir : String) (year : Nat)
    (client_code invoice_number : String) : Bool :=
  decide (invoicePath invoicesDir year client_code invoice_number ∈ fs)

/-- The body of `get_alternative_invoice_number`'s `while True` loop:
try `f"{base}-{counter:03d}"`, return it when free, otherwise increment and
fall back to the time-of-day suffix `ts` once `counter > 999`.  The
unbounded Python loop is modelled with fuel; fuel 998 is exactly enough to
visit counters 1–999, after which the `counter > 999` guard fires, so the
`fuel = 0` branch is unreachable from `getAlternativeInvoiceNumber`. -/
def getAltLoop (ex : String → Bool) (base ts : String) :
    Nat → Nat → String
  | counter, fuel =>
    let alternative := base ++ "-" ++ pad3 counter
    if ex alternative = false then alternative
    else if 999 < counter + 1 then base ++ "-" ++ ts
    else
      match fuel with
      | 0 => base ++ "-" ++ ts
      | f + 1 => getAltLoop ex base ts (counter + 1) f

/-- `get_alternative_invoice_number`; `ts` is
`datetime.now().strftime("%H%M%S")`, the nondeterministic time-of-day
fallback suffix, passed as a parameter. -/
def getAlternativeInvoiceNumber (fs : List String) (invoicesDir : String)
    (year : Nat) (client_code base ts : String) : String :=
  getAltLoop (fun n => checkInvoiceExists fs invoicesDir year client_code n)
    base ts 1 998

/-- Spec-side description of the duplicate-avoidance policy, for the
refinement theorem: the first suffix in 001–999 whose path is free, else the
time-of-day fallback. -/
def altNumberSpec (ex : String → Bool) (base ts : String) : String :=
  match (List.range' 1 999).find? (fun k => ! ex (base ++ "-" ++ pad3 k)) with
  | some k => base ++ "-" ++ pad3 k
  | none => base ++ "-" ++ ts

/-! ## Claim C10 — strict `get_client` -/

/-- C10: when `get_client` is called with `raise_if_not_found=True` on an id
whose `client.json` does not exist it raises `ValueError`, but if the file
exists and fails to parse or validate it returns `None` without raising —
strict mode distinguishes only a missing file, never a corrupt record. -/
theorem getClient_strict_missing_raises_corrupt_absent
    (st : MState) (cid : String) :
    ((clientDirOf st cid).bind ClientDir.clientFile = none →
      getClient st cid true =
        Except.error ("Client with ID '" ++ cid ++ "' not found.")) ∧
    ((clientDirOf st cid).bind ClientDir.clientFile = some DiskFile.corrupt →
      getClient st cid true = Except.ok none ∧
      getClient st cid false = Except.ok none) := by
  constructor
  · intro h
    simp [getClient, h]
  · intro h
    simp [getClient, h]

theorem getClient_strict_missing_raises_corrupt_absent_witness :
    getClient ⟨⟨none, []⟩, [], []⟩ "ghost" true =
      Except.error ("Client with ID '" ++ "ghost" ++ "' not found.") ∧
    getClient ⟨⟨none, []⟩, [("bad", ⟨some DiskFile.corrupt, []⟩)], []⟩ "bad" true =
      Except.ok none ∧
    getClient ⟨⟨none, []⟩, [("bad", ⟨some DiskFile.corrupt, []⟩)], []⟩ "bad" false =
      Except.ok none :=
  ⟨(getClient_strict_missing_raises_corrupt_absent ⟨⟨none, []⟩, [], []⟩ "ghost").1
      rfl,
   (getClient_strict_missing_raises_corrupt_absent
      ⟨⟨none, []⟩, [("bad", ⟨some DiskFile.corrupt, []⟩)], []⟩ "bad").2 rfl⟩

/-! ## Claim C9 — duplicate-number avoidance -/

theorem getAltLoop_eq_find (ex : String → Bool) (base ts : String) :
    ∀ fuel counter, 1 ≤ counter → counter + fuel = 999 →
      getAltLoop ex base ts counter fuel =
        match (List.range' counter (fuel + 1)).find?
            (fun k => ! ex (base ++ "-" ++ pad3 k)) with
        | some k => base ++ "-" ++ pad3 k
        | none => base ++ "-" ++ ts := by
  intro fuel
  induction fuel with
  | zero =>
    intro counter h1 h999
    rw [getAltLoop]
    have hc : counter = 999 := by omega
    subst hc
    by_cases hex : ex (base ++ "-" ++ pad3 999) = false
    · simp [List.range', List.find?, hex]
    · have hex' : ex (base ++ "-" ++ pad3 999) = true := by
        revert hex; cases ex (base ++ "-" ++ pad3 999) <;> simp
      simp [List.range', List.find?, hex, hex']
  | succ f ih =>
    intro counter h1 h999
    rw [getAltLoop]
    by_cases hex : ex (base ++ "-" ++ pad3 counter) = false
    · simp only [hex, if_pos]
      rw [List.range'_succ]
      simp [List.find?, hex]
    · have hex' : ex (base ++ "-" ++ pad3 counter) = true := by
        revert hex; cases ex (base ++ "-" ++ pad3 counter) <;> simp
      simp only [hex', if_neg, Bool.true_eq_false, not_false_iff]
      have hcnt : ¬ 999 < counter + 1 := by omega
      simp only [hcnt, if_neg, not_false_iff]
      rw [ih (counter + 1) (by omega) (by omega)]
      rw [List.range'_succ]
      simp [List.find?, hex']

/-- C9: `get_alternative_invoice_number` returns the first suffixed number
`-001` … `-999` whose rendered-invoice path is free (trying `-001` first,
then `-002`, …), and falls back to the time-of-day suffix when all 999 are
taken, so it terminates with an alternative for every input; in particular,
with `INV-202511-TST` already rendered it proposes `INV-202511-TST-001`,
and with that taken too, `INV-202511-TST-002`. -/
theorem alternative_invoice_number_first_free_suffix :
    (∀ (fs : List String) (invoicesDir : String) (year : Nat)
        (client_code base ts : String),
      getAlternativeInvoiceNumber fs invoicesDir year client_code base ts =
        altNumberSpec
          (fun n => checkInvoiceExists fs invoicesDir year client_code n)
          base ts) ∧
    getAlternativeInvoiceNumber
      [invoicePath "invoices" 2025 "TST" "INV-202511-TST"]
      "invoices" 2025 "TST" "INV-202511-TST" "120000" = "INV-202511-TST-001" ∧
    getAlternativeInvoiceNumber
      [invoicePath "invoices" 2025 "TST" "INV-202511-TST",
       invoicePath "invoices" 2025 "TST" "INV-202511-TST-001"]
      "invoices" 2025 "TST" "INV-202511-TST" "120000" = "INV-202511-TST-002" := by
  refine ⟨fun fs invoicesDir year client_code base ts => ?_, by decide, by decide⟩
  unfold getAlternativeInvoiceNumber altNumberSpec
  exact getAltLoop_eq_find _ base ts 998 1 (by omega) (by omega)

/-! ## Claim C1 — `add_client` / `get_client` round trip -/

/-- C1 (code evaluated at the failing input): `add_client` passes
`vat_number` to `ClientModel(...)`, but the model class has no such field,
so pydantic silently drops it — the outcome of `add_client` (state and id,
hence everything `get_client` can later return) is independent of the
supplied `vat_number`; concretely, adding Acme Corporation with VAT
`US123456789` and reading it back yields a record carrying no VAT number at
all (and `client_code` defaulted to `ACM`). -/
theorem addClient_discards_vat_number :
    (∀ (emailOk : String → Bool) (st : MState) (cd : ClientInput) (now : Nat)
        (v : Option String),
      addClient emailOk st { cd with vat_number := v } now =
        addClient emailOk st cd now) ∧
    getClient
      (addClient (fun e => e = "billing@acme-corp.com") ⟨⟨none, []⟩, [], []⟩
        { name := "Acme Corporation", email := "billing@acme-corp.com",
          vat_number := some "US123456789" } 5).1
      "acme_corporation" false =
    Except.ok (some ⟨"acme_corporation", "Acme Corporation",
      "billing@acme-corp.com", "ACM", "", "", "", 5, none, 0, 0⟩) :=
  ⟨fun _ _ _ _ _ => rfl, by decide⟩

/-! ## Claim C2 — id uniqueness and reuse after deletion -/

theorem alSet_self_mem {α : Type} (l : List (String × α)) (k : String) (v : α) :
    (k, v) ∈ alSet l k v := by
  induction l with
  | nil => simp [alSet]
  | cons p rest ih =>
    rw [alSet.eq_def]
    by_cases h : p.1 = k
    · simp [h]
    · simpa [h] using Or.inr ih

theorem writeClientFile_mem (root : ClientDir) (dirs : List (String × ClientDir))
    (cid : String) (f : DiskFile) (hne : cid ≠ "") :
    ∃ d, (cid, d) ∈ (writeClientFile root dirs cid f).2 ∧
      d.clientFile = some f := by
  unfold writeClientFile
  rw [if_neg hne]
  cases h : alGet dirs cid with
  | some d =>
    exact ⟨{ d with clientFile := some f }, alSet_self_mem dirs cid _, rfl⟩
  | none =>
    exact ⟨⟨some f, []⟩, by simp, rfl⟩

theorem mem_buildIndex_keys {dirs : List (String × ClientDir)} {cid : String}
    {d : ClientDir} {c : ClientModel} (hmem : (cid, d) ∈ dirs)
    (hf : d.clientFile = some (DiskFile.valid c))
    (hdot : startsWithDot cid = false) :
    cid ∈ (buildIndex dirs).map Prod.fst := by
  refine List.mem_map.mpr ⟨(cid, indexEntryOf c), ?_, rfl⟩
  refine List.mem_filterMap.mpr ⟨(cid, d), hmem, ?_⟩
  simp [hdot, hf]

theorem underscoreNonAlnum_spec (c : Char) :
    (underscoreNonAlnum c).isAlphanum = true ∨ underscoreNonAlnum c = '_' := by
  unfold underscoreNonAlnum
  by_cases h : c.isAlphanum <;> simp [h]

theorem collapseUnderscores_sub :
    ∀ (l : List Char) (x : Char), x ∈ collapseUnderscores l → x ∈ l
  | [], x, h => by simpa [collapseUnderscores] using h
  | [c], x, h => by simpa [collapseUnderscores] using h
  | a :: b :: rest, x, h => by
    rw [collapseUnderscores] at h
    by_cases hab : (a = '_' && b = '_') = true
    · rw [if_pos hab] at h
      exact List.mem_cons_of_mem a (collapseUnderscores_sub (b :: rest) x h)
    · rw [if_neg hab] at h
      rcases List.mem_cons.mp h with rfl | h'
      · exact List.mem_cons_self _ _
      · exact List.mem_cons_of_mem a (collapseUnderscores_sub (b :: rest) x h')

theorem stripUnderscores_sub (l : List Char) (x : Char)
    (h : x ∈ stripUnderscores l) : x ∈ l := by
  unfold stripUnderscores at h
  rw [List.mem_reverse] at h
  have h1 := (List.dropWhile_sublist _).subset h
  rw [List.mem_reverse] at h1
  exact (List.dropWhile_sublist _).subset h1

theorem slugify_chars (s : String) :
    ∀ c ∈ (slugify s).data, c.isAlphanum = true ∨ c = '_' := by
  intro c hc
  have h1 : c ∈ collapseUnderscores
      ((s.data.map Char.toLower).map underscoreNonAlnum) :=
    stripUnderscores_sub _ c hc
  have h2 := collapseUnderscores_sub _ c h1
  rw [List.mem_map] at h2
  obtain ⟨a, _, rfl⟩ := h2
  exact underscoreNonAlnum_spec a

theorem startsWithDot_false_of_slug_chars (s : String)
    (h : ∀ c ∈ s.data, c.isAlphanum = true ∨ c = '_') :
    startsWithDot s = false := by
  unfold startsWithDot
  cases hd : s.data with
  | nil => rfl
  | cons a t =>
    have ha := h a (by rw [hd]; exact List.mem_cons_self _ _)
    have : a ≠ '.' := by
      rcases ha with ha | rfl
      · intro hcontra; subst hcontra; simp at ha
      · intro hcontra; cases hcontra
    simpa using this

theorem generateClientId_shape (st : MState) (name : String) :
    generateClientId st name = slugify name ∨
    ∃ k, 1 ≤ k ∧
      generateClientId st name = slugify name ++ "_" ++ natDecStr k := by
  unfold generateClientId
  exact suffixLoop_shape (indexKeys st) (slugify name) _ _ 1

theorem generateClientId_no_dot (st : MState) (name : String) :
    startsWithDot (generateClientId st name) = false := by
  rcases generateClientId_shape st name with h | ⟨k, _, h⟩
  · rw [h]
    exact startsWithDot_false_of_slug_chars _ (slugify_chars name)
  · rw [h]
    unfold startsWithDot
    have hdata : (slugify name ++ "_" ++ natDecStr k).data =
        (slugify name).data ++ '_' :: (natDecStr k).data := by
      simp [strAppend_data]
    rw [hdata]
    cases hsd : (slugify name).data with
    | nil => simp
    | cons a t =>
      have ha := slugify_chars name a (by rw [hsd]; exact List.mem_cons_self _ _)
      have : a ≠ '.' := by
        rcases ha with ha | rfl
        · intro hcontra; subst hcontra; simp at ha
        · intro hcontra; cases hcontra
      simpa using this

theorem generateClientId_not_mem (st : MState) (name : String) :
    generateClientId st name ∉ indexKeys st := by
  unfold generateClientId
  exact suffixLoop_not_mem (indexKeys st) (slugify name) (slugify name)

theorem suffixLoop_head_free {taken : List String} {orig cur : String}
    (h : cur ∉ taken) :
    ∀ counter fuel, suffixLoop taken orig cur counter fuel = cur := by
  intro counter fuel
  cases fuel <;> simp [suffixLoop, h]

/-- A name with no alphanumeric characters slugs to "": when "" is not yet an
index key the collision loop exits immediately and `add_client` returns the
empty id, which `pathlib` then collapses to the clients root. -/
theorem generateClientId_empty (st : MState) (name : String)
    (hs : slugify name = "") (hnm : "" ∉ indexKeys st) :
    generateClientId st name = "" := by
  unfold generateClientId
  rw [hs]
  exact suffixLoop_head_free hnm 1 _

theorem generateClientId_ne_empty (st : MState) (name : String)
    (hs : slugify name ≠ "") : generateClientId st name ≠ "" := by
  rcases generateClientId_shape st name with h | ⟨k, _, h⟩
  · rw [h]; exact hs
  · rw [h]
    intro hcontra
    have hd := congrArg String.data hcontra
    rw [strAppend_data, strAppend_data] at hd
    simp at hd

/-- Inversion of a successful `add_client`. -/
theorem addClient_some_inv {emailOk : String → Bool} {st : MState}
    {cd : ClientInput} {now : Nat} {st' : MState} {cid : String}
    (h : addClient emailOk st cd now = (st', some cid)) :
    cid = generateClientId st cd.name ∧
    ∃ c,
      st'.root = (writeClientFile st.root st.dirs cid (DiskFile.valid c)).1 ∧
      st'.dirs = (writeClientFile st.root st.dirs cid (DiskFile.valid c)).2 ∧
      st'.index =
        buildIndex (writeClientFile st.root st.dirs cid (DiskFile.valid c)).2 := by
  simp only [addClient] at h
  cases hm : mkClientModel emailOk (generateClientId st cd.name) cd.name cd.email
      (cd.client_code.getD (pyUpper (pyTake3 cd.name)))
      (cd.address.getD "") (cd.phone.getD "") (cd.notes.getD "") now none 0 0 with
  | none =>
    rw [hm] at h
    simp [Prod.ext_iff] at h
  | some c =>
    rw [hm] at h
    rw [Prod.mk.injEq, Option.some.injEq] at h
    obtain ⟨hst, hcid⟩ := h
    subst hcid
    exact ⟨rfl, c, by rw [← hst], by rw [← hst], by rw [← hst]⟩

theorem addClient_mem_post {emailOk : String → Bool} {st : MState}
    {cd : ClientInput} {now : Nat} {st' : MState} {cid : String}
    (hs : slugify cd.name ≠ "")
    (h : addClient emailOk st cd now = (st', some cid)) :
    cid ∈ indexKeys st' := by
  obtain ⟨rfl, c, _, hdirs, hidx⟩ := addClient_some_inv h
  obtain ⟨d, hmem, hf⟩ :=
    writeClientFile_mem st.root st.dirs (generateClientId st cd.name)
      (DiskFile.valid c) (generateClientId_ne_empty st cd.name hs)
  have := mem_buildIndex_keys hmem hf (generateClientId_no_dot st cd.name)
  unfold indexKeys
  rw [hidx]
  exact this

theorem addClient_not_mem_pre {emailOk : String → Bool} {st : MState}
    {cd : ClientInput} {now : Nat} {st' : MState} {cid : String}
    (h : addClient emailOk st cd now = (st', some cid)) :
    cid ∉ indexKeys st := by
  obtain ⟨rfl, _⟩ := addClient_some_inv h
  exact generateClientId_not_mem st cd.name

/-- C2 (amended): an id returned by `add_client` is never a key of the index
at the time of the call.  When the name's slug is nonempty the id is a key of
the index afterwards, so ids of coexisting clients are pairwise distinct and
two consecutive successful adds return different ids.  When the slug is
empty (name with no alphanumeric characters) and "" is not yet indexed, the
returned id is "" — it maps to the clients root, is never indexed, and a
repeated add returns "" again (`client_id_reused_after_delete`).  The
claim's "never reused even after deletion" part is refuted by the same
counterexample. -/
theorem addClient_id_fresh (emailOk : String → Bool) (st : MState)
    (cd : ClientInput) (now : Nat) (st' : MState) (cid : String)
    (h : addClient emailOk st cd now = (st', some cid)) :
    cid ∉ indexKeys st ∧
    (slugify cd.name = "" → "" ∉ indexKeys st → cid = "") ∧
    (slugify cd.name ≠ "" →
      cid ∈ indexKeys st' ∧
      ∀ cd2 now2 st2 cid2,
        addClient emailOk st' cd2 now2 = (st2, some cid2) → cid2 ≠ cid) := by
  refine ⟨addClient_not_mem_pre h, ?_, ?_⟩
  · intro hs hnm
    obtain ⟨rfl, _⟩ := addClient_some_inv h
    exact generateClientId_empty st cd.name hs hnm
  · intro hs
    refine ⟨addClient_mem_post hs h, ?_⟩
    intro cd2 now2 st2 cid2 h2 hcontra
    exact addClient_not_mem_pre h2 (hcontra ▸ addClient_mem_post hs h)

theorem addClient_id_fresh_witness :
    "acme" ∉ indexKeys (⟨⟨none, []⟩, [], []⟩ : MState) ∧
    "acme" ∈ indexKeys
      (addClient (fun e => e = "a@b.com") ⟨⟨none, []⟩, [], []⟩
        { name := "Acme", email := "a@b.com" } 0).1 := by
  have h := addClient_id_fresh (fun e => e = "a@b.com") ⟨⟨none, []⟩, [], []⟩
    { name := "Acme", email := "a@b.com" } 0
    (addClient (fun e => e = "a@b.com") ⟨⟨none, []⟩, [], []⟩
      { name := "Acme", email := "a@b.com" } 0).1 "acme" (by decide)
  exact ⟨h.1, (h.2.2 (by decide)).1⟩

/-- C2 (counterexample): the claim "the generated id is unique among all
existing clients and an id assigned once is never assigned again" fails two
ways.  (1) Reuse after deletion: adding a client named Acme yields id
`acme`; after deleting that client, adding another client named Acme yields
the very same id `acme` again, because `_generate_client_id` consults only
the current index.  (2) Collision without deletion: a name with no
alphanumeric characters ("!!!") slugs to "", which maps to the clients root
and is never indexed, so two consecutive `add_client("!!!")` calls both
return the id "" — the second silently overwrites the first's
`client.json`. -/
theorem client_id_reused_after_delete :
    (addClient (fun e => e = "a@b.com") ⟨⟨none, []⟩, [], []⟩
      { name := "Acme", email := "a@b.com" } 0).2 = some "acme" ∧
    (addClient (fun e => e = "a@b.com")
      (deleteClient
        (addClient (fun e => e = "a@b.com") ⟨⟨none, []⟩, [], []⟩
          { name := "Acme", email := "a@b.com" } 0).1 "acme").1
      { name := "Acme", email := "a@b.com" } 1).2 = some "acme" ∧
    (addClient (fun e => e = "a@b.com") ⟨⟨none, []⟩, [], []⟩
      { name := "!!!", email := "a@b.com" } 0).2 = some "" ∧
    (addClient (fun e => e = "a@b.com")
      (addClient (fun e => e = "a@b.com") ⟨⟨none, []⟩, [], []⟩
        { name := "!!!", email := "a@b.com" } 0).1
      { name := "!!!", email := "a@b.com" } 1).2 = some "" := by
  refine ⟨by decide, by decide, by decide, by decide⟩

/-! ## Claim C4 — slug-based id generation and same-name collisions -/

/-- C4 (counterexample): with a client named Acme already at id `acme`, two
further clients both named Acme receive ids `acme_1` and `acme_2`; these are
two clients added with the same name, yet the second id is not the first
extended with a numeric suffix — every extension `acme_1 ++ "_" ++ str(k)`
is strictly longer than `acme_2` (suffixes count up from the base slug
`acme`, not from the previous id). -/
theorem same_name_second_id_not_extension_of_first :
    (addClient (fun e => e = "a@b.com") ⟨⟨none, []⟩, [], []⟩
      { name := "Acme", email := "a@b.com" } 0).2 = some "acme" ∧
    (addClient (fun e => e = "a@b.com")
      (addClient (fun e => e = "a@b.com") ⟨⟨none, []⟩, [], []⟩
        { name := "Acme", email := "a@b.com" } 0).1
      { name := "Acme", email := "a@b.com" } 1).2 = some "acme_1" ∧
    (addClient (fun e => e = "a@b.com")
      (addClient (fun e => e = "a@b.com")
        (addClient (fun e => e = "a@b.com") ⟨⟨none, []⟩, [], []⟩
          { name := "Acme", email := "a@b.com" } 0).1
        { name := "Acme", email := "a@b.com" } 1).1
      { name := "Acme", email := "a@b.com" } 2).2 = some "acme_2" ∧
    ∀ k : Nat, "acme_1" ++ "_" ++ natDecStr k ≠ "acme_2" := by
  refine ⟨by decide, by decide, by decide, ?_⟩
  intro k h
  have hlen := congrArg (fun s => s.data.length) h
  simp only [strAppend_data, List.length_append] at hlen
  have hpos : 0 < (natDec k).length :=
    List.length_pos.mpr (natDec_ne_nil k)
  have h1 : (natDecStr k).data = natDec k := rfl
  rw [h1] at hlen
  norm_num at hlen
  omega

/-- C4 (amended): `_generate_client_id` slugs the name (lowercase, runs of
non-alphanumerics to one underscore, strip outer underscores — e.g.
"Acme Corporation" becomes `acme_corporation`) and on collision appends
`_1`, `_2`, … **to the base slug**; hence, for a name whose slug is nonempty,
two clients added in succession with the same name get distinct ids, the
second being the slug or the slug with a numeric suffix, and when the first
got the plain slug the second is the first extended with a numeric suffix.
(For a name with no alphanumeric characters the slug is empty, the id ""
never enters the index, and both adds return "" —
`client_id_reused_after_delete`.) -/
theorem addClient_same_name_ids (emailOk : String → Bool) (st : MState)
    (cd : ClientInput) (now now2 : Nat) (st1 st2 : MState) (cid1 cid2 : String)
    (hs : slugify cd.name ≠ "")
    (h1 : addClient emailOk st cd now = (st1, some cid1))
    (h2 : addClient emailOk st1 cd now2 = (st2, some cid2)) :
    cid1 ≠ cid2 ∧
    (cid2 = slugify cd.name ∨
      ∃ k, 1 ≤ k ∧ cid2 = slugify cd.name ++ "_" ++ natDecStr k) ∧
    (cid1 = slugify cd.name →
      ∃ k, 1 ≤ k ∧ cid2 = cid1 ++ "_" ++ natDecStr k) := by
  have hne : cid1 ≠ cid2 := by
    intro hcontra
    exact addClient_not_mem_pre h2 (hcontra ▸ addClient_mem_post hs h1)
  have hshape : cid2 = slugify cd.name ∨
      ∃ k, 1 ≤ k ∧ cid2 = slugify cd.name ++ "_" ++ natDecStr k := by
    obtain ⟨rfl, _⟩ := addClient_some_inv h2
    exact generateClientId_shape st1 cd.name
  refine ⟨hne, hshape, ?_⟩
  intro hslug
  rcases hshape with h | ⟨k, hk, h⟩
  · exact absurd (hslug.trans h.symm) hne
  · exact ⟨k, hk, by rw [h, hslug]⟩

theorem addClient_same_name_ids_witness :
    "acme_corporation" ≠ "acme_corporation_1" ∧
    ("acme_corporation_1" = slugify "Acme Corporation" ∨
      ∃ k, 1 ≤ k ∧ "acme_corporation_1" =
        slugify "Acme Corporation" ++ "_" ++ natDecStr k) ∧
    ("acme_corporation" = slugify "Acme Corporation" →
      ∃ k, 1 ≤ k ∧ "acme_corporation_1" =
        "acme_corporation" ++ "_" ++ natDecStr k) := by
  have h := addClient_same_name_ids (fun e => e = "billing@acme-corp.com")
    ⟨⟨none, []⟩, [], []⟩
    { name := "Acme Corporation", email := "billing@acme-corp.com" }
    0 1
    (addClient (fun e => e = "billing@acme-corp.com") ⟨⟨none, []⟩, [], []⟩
      { name := "Acme Corporation", email := "billing@acme-corp.com" } 0).1
    (addClient (fun e => e = "billing@acme-corp.com")
      (addClient (fun e => e = "billing@acme-corp.com") ⟨⟨none, []⟩, [], []⟩
        { name := "Acme Corporation", email := "billing@acme-corp.com" } 0).1
      { name := "Acme Corporation", email := "billing@acme-corp.com" } 1).1
    "acme_corporation" "acme_corporation_1" (by decide) (by decide) (by decide)
  exact h

/-! ## Claim C3 — index/store consistency after mutations -/

/-- C3 (counterexample): `update_client` with `{"total_invoices": 5}`
succeeds, changes a field stored in the index, but rebuilds nothing —
`total_invoices` is not in the `["name", "email", "client_code",
"vat_number"]` trigger list — so after the operation returns, the in-memory
index differs from what rebuilding from disk would produce. -/
theorem index_stale_after_total_invoices_update :
    (updateClient (fun e => e = "a@b.com")
      (addClient (fun e => e = "a@b.com") ⟨⟨none, []⟩, [], []⟩
        { name := "Acme", email := "a@b.com" } 0).1
      "acme" { total_invoices := some 5 }).2 = true ∧
    (updateClient (fun e => e = "a@b.com")
      (addClient (fun e => e = "a@b.com") ⟨⟨none, []⟩, [], []⟩
        { name := "Acme", email := "a@b.com" } 0).1
      "acme" { total_invoices := some 5 }).1.index ≠
    buildIndex
      (updateClient (fun e => e = "a@b.com")
        (addClient (fun e => e = "a@b.com") ⟨⟨none, []⟩, [], []⟩
          { name := "Acme", email := "a@b.com" } 0).1
        "acme" { total_invoices := some 5 }).1.dirs := by
  constructor <;> decide

/-- C3 (amended): starting from a consistent state, the in-memory index
equals a rebuild from disk after `add_client`, after every `delete_client`
call that returns to its caller (`delete_client("")` instead rmtrees the
whole store and raises `FileNotFoundError` from the rebuild), after
`record_invoice`, and after `update_client` whenever the update dict touches
one of the trigger keys name/email/client_code/vat_number; an `update_client`
whose keys miss that list (e.g. `total_invoices`, `last_invoice_date` —
both stored in the index) performs no rebuild and can leave the index
stale, as `index_stale_after_total_invoices_update` shows. -/
theorem index_rebuilt_after_mutations (emailOk : String → Bool) (st : MState)
    (hcons : st.index = buildIndex st.dirs) :
    (∀ cd now, (addClient emailOk st cd now).1.index =
      buildIndex (addClient emailOk st cd now).1.dirs) ∧
    (∀ cid st2 b, deleteClient st cid = (st2, Except.ok b) →
      st2.index = buildIndex st2.dirs) ∧
    (∀ cid dw hpd hr now,
      (recordInvoice emailOk st cid dw hpd hr now).1.index =
        buildIndex (recordInvoice emailOk st cid dw hpd hr now).1.dirs) ∧
    (∀ cid updates, (updates.name.isSome || updates.email.isSome ||
        updates.client_code.isSome || updates.vat_number.isSome) = true →
      (updateClient emailOk st cid updates).1.index =
        buildIndex (updateClient emailOk st cid updates).1.dirs) := by
  refine ⟨?_, ?_, ?_, ?_⟩
  · intro cd now
    simp only [addClient]
    split
    · exact hcons
    · rfl
  · intro cid st2 b hdel
    by_cases hcid : cid = ""
    · subst hcid
      simp only [deleteClient, if_pos] at hdel
      rw [Prod.mk.injEq] at hdel
      cases hdel.2
    · simp only [deleteClient, if_neg hcid] at hdel
      cases hget : alGet st.dirs cid with
      | none =>
        rw [hget] at hdel
        rw [Prod.mk.injEq] at hdel
        rw [← hdel.1]
        exact hcons
      | some d =>
        rw [hget] at hdel
        rw [Prod.mk.injEq] at hdel
        rw [← hdel.1]
  · intro cid dw hpd hr now
    simp only [recordInvoice]
    split
    · split
      · exact hcons
      · rfl
    · exact hcons
  · intro cid updates hflag
    simp only [updateClient]
    split
    · split
      · exact hcons
      · simp [hflag]
    · exact hcons

theorem index_rebuilt_after_mutations_witness :
    (⟨⟨none, []⟩, [], []⟩ : MState).index =
      buildIndex (MState.dirs ⟨⟨none, []⟩, [], []⟩) ∧
    (addClient (fun e => e = "a@b.com") ⟨⟨none, []⟩, [], []⟩
      { name := "Acme", email := "a@b.com" } 0).1.index =
      buildIndex (addClient (fun e => e = "a@b.com") ⟨⟨none, []⟩, [], []⟩
        { name := "Acme", email := "a@b.com" } 0).1.dirs ∧
    (deleteClient (addClient (fun e => e = "a@b.com") ⟨⟨none, []⟩, [], []⟩
      { name := "Acme", email := "a@b.com" } 0).1 "acme").1.index =
      buildIndex (deleteClient (addClient (fun e => e = "a@b.com")
        ⟨⟨none, []⟩, [], []⟩
        { name := "Acme", email := "a@b.com" } 0).1 "acme").1.dirs ∧
    (updateClient (fun e => e = "a@b.com") ⟨⟨none, []⟩, [], []⟩ "acme"
      { email := some "x@y.com" }).1.index =
      buildIndex (updateClient (fun e => e = "a@b.com") ⟨⟨none, []⟩, [], []⟩
        "acme" { email := some "x@y.com" }).1.dirs := by
  have h := index_rebuilt_after_mutations (fun e => e = "a@b.com")
    ⟨⟨none, []⟩, [], []⟩ rfl
  have h2 := index_rebuilt_after_mutations (fun e => e = "a@b.com")
    (addClient (fun e => e = "a@b.com") ⟨⟨none, []⟩, [], []⟩
      { name := "Acme", email := "a@b.com" } 0).1
    (h.1 { name := "Acme", email := "a@b.com" } 0)
  exact ⟨rfl, h.1 { name := "Acme", email := "a@b.com" } 0,
    h2.2.1 "acme" _ true (by decide),
    h.2.2.2 "acme" { email := some "x@y.com" } (by decide)⟩

/-! ## Claim C8 — `update_client` immutability and atomicity -/

theorem alGet_alSet_self {α : Type} (l : List (String × α)) (k : String)
    (v : α) : alGet (alSet l k v) k = some v := by
  induction l with
  | nil => simp [alSet, alGet]
  | cons p rest ih =>
    rw [alSet.eq_def]
    by_cases h : p.1 = k
    · simp [h, alGet]
    · simp only [h, if_neg, not_false_iff]
      rw [alGet.eq_def]
      simp [h, ih]

theorem alGet_append_left_none {α : Type} (l1 l2 : List (String × α))
    (k : String) (h : alGet l1 k = none) :
    alGet (l1 ++ l2) k = alGet l2 k := by
  induction l1 with
  | nil => rfl
  | cons p rest ih =>
    rw [alGet.eq_def] at h
    by_cases hp : p.1 = k
    · simp [hp] at h
    · rw [List.cons_append, alGet.eq_def]
      simp only [hp, if_neg, not_false_iff]
      exact ih (by simpa [hp] using h)

theorem writeClientFile_clientDirOf {st' : MState} {root : ClientDir}
    {dirs : List (String × ClientDir)} {cid : String} {f : DiskFile}
    (h : (st'.root, st'.dirs) = writeClientFile root dirs cid f) :
    ∃ d, clientDirOf st' cid = some d ∧ d.clientFile = some f := by
  unfold writeClientFile at h
  by_cases hcid : cid = ""
  · rw [if_pos hcid] at h
    rw [Prod.mk.injEq] at h
    refine ⟨{ root with clientFile := some f }, ?_, rfl⟩
    unfold clientDirOf
    rw [if_pos hcid, h.1]
  · rw [if_neg hcid] at h
    cases hget : alGet dirs cid with
    | some d =>
      rw [hget] at h
      rw [Prod.mk.injEq] at h
      refine ⟨{ d with clientFile := some f }, ?_, rfl⟩
      unfold clientDirOf
      rw [if_neg hcid, h.2]
      exact alGet_alSet_self dirs cid _
    | none =>
      rw [hget] at h
      rw [Prod.mk.injEq] at h
      refine ⟨⟨some f, []⟩, ?_, rfl⟩
      unfold clientDirOf
      rw [if_neg hcid, h.2]
      rw [alGet_append_left_none _ _ _ hget]
      simp [alGet]

theorem getClient_writeClientFile_valid {st' : MState} {root : ClientDir}
    {dirs : List (String × ClientDir)} {cid : String} {c' : ClientModel}
    (h : (st'.root, st'.dirs) = writeClientFile root dirs cid (DiskFile.valid c')) :
    getClient st' cid false = Except.ok (some c') := by
  obtain ⟨d, hget, hf⟩ := writeClientFile_clientDirOf h
  unfold getClient
  rw [hget]
  simp [hf]

theorem mkClientModel_some_inv {emailOk : String → Bool}
    {id name email cc addr ph nt : String} {cr : Nat} {li : Option Nat}
    {ti : Int} {ta : ℚ} {c : ClientModel}
    (h : mkClientModel emailOk id name email cc addr ph nt cr li ti ta = some c) :
    c = ⟨id, pyStrip name, email, pyUpper cc, addr, ph, nt, cr, li, ti, ta⟩ := by
  unfold mkClientModel at h
  split_ifs at h
  injection h with h'
  exact h'.symm

/-- C8: `update_client` ignores `id` and `created_date` keys (the stored id
and creation date survive any update); when the merged record fails
validation it returns `False` with the state — disk and index — exactly as
before (no partial application); otherwise the validated merged record is
what `get_client` returns afterwards. -/
theorem updateClient_immutable_and_atomic (emailOk : String → Bool)
    (st : MState) (cid : String) (updates : ClientUpdate) :
    ((updateClient emailOk st cid updates).2 = false →
      (updateClient emailOk st cid updates).1 = st) ∧
    (∀ c, getClient st cid false = Except.ok (some c) →
      ∀ st', updateClient emailOk st cid updates = (st', true) →
        ∃ c', mkClientModel emailOk c.id
            (updates.name.getD c.name) (updates.email.getD c.email)
            (updates.client_code.getD c.client_code)
            (updates.address.getD c.address) (updates.phone.getD c.phone)
            (updates.notes.getD c.notes) c.created_date
            (updates.last_invoice_date.getD c.last_invoice_date)
            (updates.total_invoices.getD c.total_invoices)
            (updates.total_amount.getD c.total_amount) = some c' ∧
          c'.id = c.id ∧ c'.created_date = c.created_date ∧
          (st'.root, st'.dirs) =
            writeClientFile st.root st.dirs cid (DiskFile.valid c') ∧
          getClient st' cid false = Except.ok (some c')) := by
  cases hg : getClient st cid false with
  | error e =>
    constructor
    · intro _
      simp [updateClient, hg]
    · intro c hc
      cases hc
  | ok o =>
    cases o with
    | none =>
      constructor
      · intro _
        simp [updateClient, hg]
      · intro c hc
        simp at hc
    | some c0 =>
      cases hm : mkClientModel emailOk c0.id
          (updates.name.getD c0.name) (updates.email.getD c0.email)
          (updates.client_code.getD c0.client_code)
          (updates.address.getD c0.address) (updates.phone.getD c0.phone)
          (updates.notes.getD c0.notes) c0.created_date
          (updates.last_invoice_date.getD c0.last_invoice_date)
          (updates.total_invoices.getD c0.total_invoices)
          (updates.total_amount.getD c0.total_amount) with
      | none =>
        constructor
        · intro _
          simp [updateClient, hg, hm]
        · intro c hc st' hup
          simp only [Except.ok.injEq, Option.some.injEq] at hc
          subst hc
          simp only [updateClient, hg, hm] at hup
          rw [Prod.mk.injEq] at hup
          cases hup.2
      | some c' =>
        constructor
        · intro hfail
          simp [updateClient, hg, hm] at hfail
        · intro c hc st' hup
          simp only [Except.ok.injEq, Option.some.injEq] at hc
          subst hc
          simp only [updateClient, hg, hm] at hup
          rw [Prod.mk.injEq] at hup
          have hst' : st' =
              ⟨(writeClientFile st.root st.dirs cid (DiskFile.valid c')).1,
               (writeClientFile st.root st.dirs cid (DiskFile.valid c')).2,
               if updates.name.isSome || updates.email.isSome ||
                 updates.client_code.isSome || updates.vat_number.isSome then
                 buildIndex
                   (writeClientFile st.root st.dirs cid (DiskFile.valid c')).2
               else st.index⟩ := hup.1.symm
          have hw : (st'.root, st'.dirs) =
              writeClientFile st.root st.dirs cid (DiskFile.valid c') := by
            rw [hst']
          have hcinv := mkClientModel_some_inv hm
          refine ⟨c', hm, ?_, ?_, hw, getClient_writeClientFile_valid hw⟩
          · rw [hcinv]
          · rw [hcinv]

theorem updateClient_immutable_and_atomic_witness :
    ∃ c', mkClientModel (fun e => e = "a@b.com" || e = "new@b.com") "acme"
        "Acme" "new@b.com" "ACM" "" "" "" 0 none 0 0 = some c' ∧
      c'.id = "acme" ∧ c'.created_date = 0 ∧
      ((updateClient (fun e => e = "a@b.com" || e = "new@b.com")
        (addClient (fun e => e = "a@b.com" || e = "new@b.com")
          ⟨⟨none, []⟩, [], []⟩
          { name := "Acme", email := "a@b.com" } 0).1
        "acme" { email := some "new@b.com" }).1.root,
       (updateClient (fun e => e = "a@b.com" || e = "new@b.com")
        (addClient (fun e => e = "a@b.com" || e = "new@b.com")
          ⟨⟨none, []⟩, [], []⟩
          { name := "Acme", email := "a@b.com" } 0).1
        "acme" { email := some "new@b.com" }).1.dirs) =
        writeClientFile
          (addClient (fun e => e = "a@b.com" || e = "new@b.com")
            ⟨⟨none, []⟩, [], []⟩
            { name := "Acme", email := "a@b.com" } 0).1.root
          (addClient (fun e => e = "a@b.com" || e = "new@b.com")
            ⟨⟨none, []⟩, [], []⟩
            { name := "Acme", email := "a@b.com" } 0).1.dirs
          "acme" (DiskFile.valid c') ∧
      getClient
        (updateClient (fun e => e = "a@b.com" || e = "new@b.com")
          (addClient (fun e => e = "a@b.com" || e = "new@b.com")
            ⟨⟨none, []⟩, [], []⟩
            { name := "Acme", email := "a@b.com" } 0).1
          "acme" { email := some "new@b.com" }).1
        "acme" false = Except.ok (some c') := by
  have h := (updateClient_immutable_and_atomic
    (fun e => e = "a@b.com" || e = "new@b.com")
    (addClient (fun e => e = "a@b.com" || e = "new@b.com")
      ⟨⟨none, []⟩, [], []⟩
      { name := "Acme", email := "a@b.com" } 0).1
    "acme" { email := some "new@b.com" }).2
    ⟨"acme", "Acme", "a@b.com", "ACM", "", "", "", 0, none, 0, 0⟩
    (by decide)
    (updateClient (fun e => e = "a@b.com" || e = "new@b.com")
      (addClient (fun e => e = "a@b.com" || e = "new@b.com")
        ⟨⟨none, []⟩, [], []⟩
        { name := "Acme", email := "a@b.com" } 0).1
      "acme" { email := some "new@b.com" }).1
    (by decide)
  exact h

/-! ## Claim C5 — `add_project` -/

theorem strAppend_assoc (a b c : String) : (a ++ b) ++ c = a ++ (b ++ c) := by
  cases a with | mk la =>
  cases b with | mk lb =>
  cases c with | mk lc =>
  show String.mk ((la ++ lb) ++ lc) = String.mk (la ++ (lb ++ lc))
  rw [List.append_assoc]

theorem getClient_ok_some_inv {st : MState} {cid : String} {c : ClientModel}
    (h : getClient st cid false = Except.ok (some c)) :
    ∃ d, clientDirOf st cid = some d ∧
      d.clientFile = some (DiskFile.valid c) := by
  unfold getClient at h
  cases hb : (clientDirOf st cid).bind ClientDir.clientFile with
  | none => rw [hb] at h; simp at h
  | some f =>
    rw [hb] at h
    cases f with
    | corrupt => simp at h
    | valid c2 =>
      simp only [Except.ok.injEq, Option.some.injEq] at h
      subst h
      cases hd : clientDirOf st cid with
      | none => rw [hd] at hb; simp at hb
      | some d =>
        rw [hd] at hb
        simp only [Option.some_bind] at hb
        exact ⟨d, rfl, hb⟩

/-- Resolving the client's directory after a project write yields the old
directory with the project inserted (and the client file untouched). -/
theorem clientDirOf_writeProjectFile (st st' : MState) (cid localName : String)
    (p : ProjectModel) (d : ClientDir)
    (hd : clientDirOf st cid = some d)
    (hr : st'.root = (writeProjectFile st.root st.dirs cid localName p).1)
    (hdirs : st'.dirs = (writeProjectFile st.root st.dirs cid localName p).2) :
    clientDirOf st' cid =
      some { d with projects := alSet d.projects localName p } := by
  unfold clientDirOf at hd ⊢
  unfold writeProjectFile at hr hdirs
  by_cases hcid : cid = ""
  · rw [if_pos hcid] at hd ⊢
    rw [if_pos hcid] at hr
    injection hd with hd'
    subst hd'
    rw [hr]
  · rw [if_neg hcid] at hd ⊢
    rw [if_neg hcid] at hdirs
    simp only [hd] at hdirs
    rw [hdirs]
    exact alGet_alSet_self st.dirs cid _

/-- `add_project` leaves the client record readable (it only adds a project
file inside the client's directory). -/
theorem addProject_preserves_client {st : MState} {cid pname : String}
    {now : Nat} {c : ClientModel}
    (hc : getClient st cid false = Except.ok (some c)) :
    getClient (addProject st cid pname now).1 cid false =
      Except.ok (some c) := by
  obtain ⟨d, hd, hf⟩ := getClient_ok_some_inv hc
  simp only [addProject, hc]
  unfold getClient
  rw [clientDirOf_writeProjectFile st _ cid _ _ d hd rfl rfl]
  simp [hf]

/-- Successful `add_project` inversion: the returned id and the new
directory tree. -/
theorem addProject_some_inv {st : MState} {cid pname : String} {now : Nat}
    {st' : MState} {pid : String} {c : ClientModel}
    (hc : getClient st cid false = Except.ok (some c))
    (h : addProject st cid pname now = (st', some pid)) :
    pid = generateProjectId st cid pname ∧
    st' = ⟨(writeProjectFile st.root st.dirs cid
              (pyDropPrefix pid (cid.length + 1))
              ⟨pid, pyStrip pname, cid, now⟩).1,
           (writeProjectFile st.root st.dirs cid
              (pyDropPrefix pid (cid.length + 1))
              ⟨pid, pyStrip pname, cid, now⟩).2,
           st.index⟩ := by
  simp only [addProject, hc] at h
  rw [Prod.mk.injEq, Option.some.injEq] at h
  obtain ⟨hst, hpid⟩ := h
  subst hpid
  exact ⟨rfl, hst.symm⟩

theorem generateProjectId_of_valid {st : MState} {cid pname : String}
    {c : ClientModel} (hc : getClient st cid false = Except.ok (some c)) :
    generateProjectId st cid pname =
      suffixLoop ((listProjects st cid).map ProjectModel.id)
        (cid ++ "_" ++ slugify pname) (cid ++ "_" ++ slugify pname) 1
        (((listProjects st cid).map ProjectModel.id).length + 1) := by
  simp [generateProjectId, hc]

theorem mem_listProjects_of_dir (st : MState) (cid localName : String)
    (d : ClientDir) (p : ProjectModel)
    (hd : clientDirOf st cid =
      some { d with projects := alSet d.projects localName p }) :
    p.id ∈ (listProjects st cid).map ProjectModel.id := by
  simp only [listProjects, hd]
  refine List.mem_map.mpr ⟨p, ?_, rfl⟩
  refine List.mem_map.mpr ⟨(localName, p), ?_, rfl⟩
  exact alSet_self_mem _ _ _

/-- C5: for an existing (loadable) client, `add_project` returns
`{clientId}_{slug(projectName)}`, suffixed `_1`, `_2`, … when that id
collides with the client's existing project ids — so the id always begins
with the owning client's id plus the separator, is fresh among that
client's project ids, is present afterwards, and identically named projects
under one client get distinct ids; when the client does not load,
`add_project` returns `None` and persists nothing. -/
theorem addProject_prefix_fresh_scoped (st : MState) (cid pname : String)
    (now : Nat) :
    ((∀ c, getClient st cid false ≠ Except.ok (some c)) →
      addProject st cid pname now = (st, none)) ∧
    (∀ c, getClient st cid false = Except.ok (some c) →
      ∀ st' pid, addProject st cid pname now = (st', some pid) →
        (∃ r, pid = cid ++ "_" ++ r) ∧
        (pid = cid ++ "_" ++ slugify pname ∨
          ∃ k, 1 ≤ k ∧ pid = cid ++ "_" ++ slugify pname ++ "_" ++ natDecStr k) ∧
        pid ∉ (listProjects st cid).map ProjectModel.id ∧
        pid ∈ (listProjects st' cid).map ProjectModel.id) ∧
    (∀ c now2 st1 st2 pid1 pid2,
      getClient st cid false = Except.ok (some c) →
      addProject st cid pname now = (st1, some pid1) →
      addProject st1 cid pname now2 = (st2, some pid2) →
      pid1 ≠ pid2) := by
  refine ⟨?_, ?_, ?_⟩
  · intro hno
    unfold addProject
    cases hg : getClient st cid false with
    | error e => rfl
    | ok o =>
      cases o with
      | none => rfl
      | some c => exact absurd hg (hno c)
  · intro c hc st' pid hadd
    obtain ⟨d, hd, hf⟩ := getClient_ok_some_inv hc
    obtain ⟨hpid, hst'⟩ := addProject_some_inv hc hadd
    have hshape : pid = cid ++ "_" ++ slugify pname ∨
        ∃ k, 1 ≤ k ∧ pid = cid ++ "_" ++ slugify pname ++ "_" ++ natDecStr k := by
      rw [hpid, generateProjectId_of_valid hc]
      exact suffixLoop_shape _ _ _ _ 1
    have hfresh : pid ∉ (listProjects st cid).map ProjectModel.id := by
      rw [hpid, generateProjectId_of_valid hc]
      exact suffixLoop_not_mem _ _ _
    have hpre : ∃ r, pid = cid ++ "_" ++ r := by
      rcases hshape with h | ⟨k, _, h⟩
      · exact ⟨slugify pname, h⟩
      · refine ⟨slugify pname ++ "_" ++ natDecStr k, ?_⟩
        rw [h, ← strAppend_assoc, ← strAppend_assoc]
    have hcd := clientDirOf_writeProjectFile st st' cid
      (pyDropPrefix pid (cid.length + 1)) ⟨pid, pyStrip pname, cid, now⟩ d hd
      (by rw [hst']) (by rw [hst'])
    have hpost : pid ∈ (listProjects st' cid).map ProjectModel.id :=
      mem_listProjects_of_dir st' cid (pyDropPrefix pid (cid.length + 1)) d
        ⟨pid, pyStrip pname, cid, now⟩ hcd
    exact ⟨hpre, hshape, hfresh, hpost⟩
  · intro c now2 st1 st2 pid1 pid2 hc h1 h2 hcontra
    obtain ⟨d, hd, hf⟩ := getClient_ok_some_inv hc
    have hc1 : getClient st1 cid false = Except.ok (some c) := by
      have hpres := @addProject_preserves_client st cid pname now c hc
      rw [h1] at hpres
      exact hpres
    obtain ⟨hpid1, hst1⟩ := addProject_some_inv hc h1
    have hcd1 := clientDirOf_writeProjectFile st st1 cid
      (pyDropPrefix pid1 (cid.length + 1)) ⟨pid1, pyStrip pname, cid, now⟩ d hd
      (by rw [hst1]) (by rw [hst1])
    have hmem1 : pid1 ∈ (listProjects st1 cid).map ProjectModel.id :=
      mem_listProjects_of_dir st1 cid (pyDropPrefix pid1 (cid.length + 1)) d
        ⟨pid1, pyStrip pname, cid, now⟩ hcd1
    obtain ⟨hpid2, _⟩ := addProject_some_inv hc1 h2
    have hfresh2 : pid2 ∉ (listProjects st1 cid).map ProjectModel.id := by
      rw [hpid2, generateProjectId_of_valid hc1]
      exact suffixLoop_not_mem _ _ _
    exact hfresh2 (hcontra ▸ hmem1)

theorem addProject_prefix_fresh_scoped_witness :
    (∃ r, "acme_website_revamp" = "acme" ++ "_" ++ r) ∧
    ("acme_website_revamp" = "acme" ++ "_" ++ slugify "Website Revamp" ∨
      ∃ k, 1 ≤ k ∧ "acme_website_revamp" =
        "acme" ++ "_" ++ slugify "Website Revamp" ++ "_" ++ natDecStr k) ∧
    "acme_website_revamp" ∉
      (listProjects (addClient (fun e => e = "a@b.com") ⟨⟨none, []⟩, [], []⟩
        { name := "Acme", email := "a@b.com" } 0).1 "acme").map
        ProjectModel.id ∧
    "acme_website_revamp" ∈
      (listProjects
        (addProject (addClient (fun e => e = "a@b.com") ⟨⟨none, []⟩, [], []⟩
          { name := "Acme", email := "a@b.com" } 0).1
          "acme" "Website Revamp" 1).1 "acme").map ProjectModel.id := by
  have h := (addProject_prefix_fresh_scoped
    (addClient (fun e => e = "a@b.com") ⟨⟨none, []⟩, [], []⟩
      { name := "Acme", email := "a@b.com" } 0).1
    "acme" "Website Revamp" 1).2.1
    ⟨"acme", "Acme", "a@b.com", "ACM", "", "", "", 0, none, 0, 0⟩
    (by decide)
    (addProject (addClient (fun e => e = "a@b.com") ⟨⟨none, []⟩, [], []⟩
      { name := "Acme", email := "a@b.com" } 0).1
      "acme" "Website Revamp" 1).1
    "acme_website_revamp" (by decide)
  exact h

/-! ## Concrete evaluation of `round2` -/

theorem round2_eq_down (x : ℚ) (n : ℤ) (h1 : (n:ℚ) ≤ 100 * x)
    (h2 : 100 * x - n < 1/2) : round2 x = n / 100 := by
  have hf : ⌊(100 * x : ℚ)⌋ = n := by
    rw [Int.floor_eq_iff]
    constructor
    · exact h1
    · push_cast
      linarith
  unfold round2 roundHalfEven
  rw [hf]
  rw [if_pos (by push_cast; linarith)]

theorem round2_eq_up (x : ℚ) (n : ℤ) (h1 : (n:ℚ) ≤ 100 * x)
    (h2 : 100 * x < (n:ℚ) + 1) (h3 : 1/2 < 100 * x - n) :
    round2 x = ((n:ℚ) + 1) / 100 := by
  have hf : ⌊(100 * x : ℚ)⌋ = n := by
    rw [Int.floor_eq_iff]
    constructor
    · exact h1
    · push_cast
      linarith
  unfold round2 roundHalfEven
  rw [hf]
  rw [if_neg (by push_cast; linarith), if_pos (by push_cast; linarith)]
  push_cast
  ring

theorem round2_eq_half_even (x : ℚ) (n : ℤ) (h1 : 100 * x - n = 1/2)
    (heven : Even n) : round2 x = n / 100 := by
  have hf : ⌊(100 * x : ℚ)⌋ = n := by
    rw [Int.floor_eq_iff]
    constructor
    · linarith
    · push_cast
      linarith
  unfold round2 roundHalfEven
  rw [hf]
  rw [if_neg (by push_cast; linarith), if_neg (by push_cast; linarith),
    if_pos heven]

/-! ## Claim C6 — Invoice validation gates -/

/-- Raw constructor arguments of one `InvoiceItemModel(...)` call. -/
structure RawItem where
  description : String
  quantity : ℚ
  unit_type : String := "days"
  rate : ℚ
  amount : ℚ
deriving DecidableEq

/-- Validate a list of line items one by one; any `ValidationError` fails
the whole construction. -/
def mkInvoiceItems : List RawItem → Option (List InvoiceItemModel)
  | [] => some []
  | r :: rs =>
    match mkInvoiceItemModel r.description r.quantity r.unit_type r.rate
        r.amount with
    | none => none
    | some it =>
      match mkInvoiceItems rs with
      | none => none
      | some its => some (it :: its)

/-- Constructing an Invoice value object from raw data: validate the line
items, the embedded client info, then the invoice itself (`models.py`
construction order). -/
def buildInvoice (emailOk : String → Bool) (invoice_number : String)
    (ciName ciEmail ciCode ciAddr : String) (ciId : Option String)
    (rawItems : List RawItem) (days_worked : Option Int)
    (project_description period : Option String)
    (subtotal tax_rate tax_amount total_amount : ℚ) : Option InvoiceModel :=
  match mkInvoiceItems rawItems with
  | none => none
  | some line_items =>
    match mkInvoiceClientInfoModel emailOk ciName ciEmail ciCode ciAddr ciId with
    | none => none
    | some ci =>
      mkInvoiceModel invoice_number ci line_items days_worked
        project_description period subtotal tax_rate tax_amount total_amount

theorem mkInvoiceItemModel_some_inv {desc : String} {q : ℚ} {u : String}
    {rate amount : ℚ} {it : InvoiceItemModel}
    (h : mkInvoiceItemModel desc q u rate amount = some it) :
    it = ⟨desc, q, u, rate, round2 amount⟩ ∧ |amount - q * rate| ≤ 1/100 := by
  unfold mkInvoiceItemModel at h
  split_ifs at h with h1 h2 h3 h4 h5
  injection h with h'
  exact ⟨h'.symm, h5⟩

theorem mkInvoiceItemModel_eq_some (desc : String) (q : ℚ) (u : String)
    (rate amount : ℚ) (h1 : ¬ desc.length < 1) (h2 : 0 < q) (h3 : 0 < rate)
    (h4 : 0 ≤ amount) (h5 : |amount - q * rate| ≤ 1/100) :
    mkInvoiceItemModel desc q u rate amount =
      some ⟨desc, q, u, rate, round2 amount⟩ := by
  unfold mkInvoiceItemModel
  rw [if_neg h1, if_neg (not_not.mpr h2), if_neg (not_not.mpr h3),
    if_neg (not_not.mpr h4), if_neg (not_not.mpr h5)]

theorem mkInvoiceClientInfoModel_eq_some (emailOk : String → Bool)
    (name email cc addr : String) (cid : Option String)
    (h1 : ¬ name.length < 1) (h2 : emailOk email = true)
    (h3 : ¬ cc.length < 1) (h4 : ¬ 10 < cc.length) :
    mkInvoiceClientInfoModel emailOk name email cc addr cid =
      some ⟨name, email, cc, addr, cid⟩ := by
  unfold mkInvoiceClientInfoModel
  rw [if_neg h1, if_neg (by simp [h2]), if_neg h3, if_neg h4]

theorem mkInvoiceItems_mem {raws : List RawItem}
    {items : List InvoiceItemModel}
    (h : mkInvoiceItems raws = some items) :
    ∀ it ∈ items, ∃ r : RawItem,
      mkInvoiceItemModel r.description r.quantity r.unit_type r.rate
        r.amount = some it := by
  induction raws generalizing items with
  | nil =>
    simp only [mkInvoiceItems, Option.some.injEq] at h
    subst h
    intro it hit
    simp at hit
  | cons r rs ih =>
    simp only [mkInvoiceItems] at h
    cases h1 : mkInvoiceItemModel r.description r.quantity r.unit_type
        r.rate r.amount with
    | none => rw [h1] at h; cases h
    | some it0 =>
      rw [h1] at h
      cases h2 : mkInvoiceItems rs with
      | none => rw [h2] at h; cases h
      | some its =>
        rw [h2] at h
        simp only [Option.some.injEq] at h
        subst h
        intro it hit
        rcases List.mem_cons.mp hit with rfl | hmem
        · exact ⟨r, h1⟩
        · exact ih h2 it hmem

set_option maxHeartbeats 1000000 in
theorem mkInvoiceModel_some_inv {number : String}
    {ci : InvoiceClientInfoModel} {items : List InvoiceItemModel}
    {days : Option Int} {pd per : Option String} {sub rate tax tot : ℚ}
    {inv : InvoiceModel}
    (h : mkInvoiceModel number ci items days pd per sub rate tax tot =
      some inv) :
    inv = ⟨number, ci, items, days, pd, per, round2 sub, rate, round2 tax,
      round2 tot⟩ ∧
    (items ≠ [] → |sub - sumAmounts items| ≤ 1/100) ∧
    |tax - round2 sub * rate| ≤ 1/100 ∧
    |tot - (round2 sub + round2 tax)| ≤ 1/100 := by
  simp only [mkInvoiceModel] at h
  split_ifs at h with h1 h2 h3 h4 h5 h6 h7 h8 h9
  injection h with h'
  refine ⟨h'.symm, ?_, h7, h9⟩
  intro hne
  by_contra hfar
  exact h4 ⟨hne, hfar⟩

set_option maxHeartbeats 1000000 in
theorem mkInvoiceModel_eq_some (number : String)
    (ci : InvoiceClientInfoModel) (items : List InvoiceItemModel)
    (days : Option Int) (pd per : Option String) (sub rate tax tot : ℚ)
    (h1 : ¬ number.length < 1)
    (h2 : days.all (fun d => decide (0 ≤ d)) = true)
    (h3 : 0 ≤ sub)
    (h4 : ¬ (items ≠ [] ∧ ¬ |sub - sumAmounts items| ≤ 1/100))
    (h5 : 0 ≤ rate ∧ rate ≤ 1) (h6 : 0 ≤ tax)
    (h7 : |tax - round2 sub * rate| ≤ 1/100) (h8 : 0 ≤ tot)
    (h9 : |tot - (round2 sub + round2 tax)| ≤ 1/100) :
    mkInvoiceModel number ci items days pd per sub rate tax tot =
      some ⟨number, ci, items, days, pd, per, round2 sub, rate, round2 tax,
        round2 tot⟩ := by
  simp only [mkInvoiceModel]
  rw [if_neg h1, if_neg (by rw [h2]; simp), if_neg (not_not.mpr h3),
    if_neg h4, if_neg (not_not.mpr h5), if_neg (not_not.mpr h6),
    if_neg (not_not.mpr h7), if_neg (not_not.mpr h8),
    if_neg (not_not.mpr h9)]

/-- C6 (counterexample): an Invoice can be successfully constructed whose
stored line-item amount violates `amount = quantity × rate` beyond the 0.01
tolerance: raw amount 0.983 with quantity 1 and rate 0.992 passes the gate
(raw distance 0.009 ≤ 0.01), but the validator stores
`round(0.983, 2) = 0.98`, and |0.98 − 0.992| = 0.012 > 0.01. -/
theorem constructed_invoice_violates_claimed_tolerance :
    buildInvoice (fun _ => true) "INV-001" "Test Client" "client@test.com"
      "TST" "" none [⟨"Consulting", 1, "days", 992/1000, 983/1000⟩]
      none none none (983/1000) 0 0 (983/1000) =
    some ⟨"INV-001", ⟨"Test Client", "client@test.com", "TST", "", none⟩,
      [⟨"Consulting", 1, "days", 992/1000, 98/100⟩], none, none, none,
      98/100, 0, 0, 98/100⟩ ∧
    ¬ |(98:ℚ)/100 - 1 * (992/1000)| ≤ 1/100 := by
  have h983 : round2 ((983:ℚ)/1000) = 98/100 := by
    rw [round2_eq_down ((983:ℚ)/1000) 98 (by norm_num) (by norm_num)]
    norm_num
  have h0 : round2 (0:ℚ) = 0 := by
    rw [round2_eq_down 0 0 (by norm_num) (by norm_num)]
    norm_num
  constructor
  · have hitem := mkInvoiceItemModel_eq_some "Consulting" 1 "days"
      ((992:ℚ)/1000) ((983:ℚ)/1000) (by decide) (by norm_num) (by norm_num)
      (by norm_num) (by rw [abs_sub_le_iff]; constructor <;> norm_num)
    rw [h983] at hitem
    have hitems : mkInvoiceItems [⟨"Consulting", 1, "days", 992/1000, 983/1000⟩] =
        some [⟨"Consulting", 1, "days", 992/1000, 98/100⟩] := by
      simp only [mkInvoiceItems, hitem]
    have hci := mkInvoiceClientInfoModel_eq_some (fun _ => true) "Test Client"
      "client@test.com" "TST" "" none (by decide) rfl (by decide) (by decide)
    have hmk := mkInvoiceModel_eq_some "INV-001"
      ⟨"Test Client", "client@test.com", "TST", "", none⟩
      [⟨"Consulting", 1, "days", 992/1000, 98/100⟩] none none none
      ((983:ℚ)/1000) 0 0 ((983:ℚ)/1000)
      (by decide) (by decide) (by norm_num)
      (fun hcontra => hcontra.2 (by
        simp only [sumAmounts, List.map_cons, List.map_nil, List.sum_cons,
          List.sum_nil]
        rw [abs_sub_le_iff]
        constructor <;> norm_num))
      (by norm_num) (by norm_num)
      (by rw [h983]; norm_num)
      (by norm_num)
      (by rw [h983, h0]; rw [abs_sub_le_iff]; constructor <;> norm_num)
    rw [h983, h0] at hmk
    simp only [buildInvoice, hitems, hci]
    exact hmk
  · rw [not_le, lt_abs]
    right
    norm_num

/-- C6 (amended): construction fails whenever a raw validation gate is
violated beyond 0.01 (each gate comparing the raw field against the
already-rounded earlier fields, exactly as `mkInvoiceItemModel` and
`mkInvoiceModel` spell out), and every successfully constructed Invoice
satisfies the four equations on its stored (rounded) fields within
0.015 = 0.01 + half of the final rounding step; the 0.01 bound claimed for
the stored fields is refuted by
`constructed_invoice_violates_claimed_tolerance`. -/
theorem invoice_equations_hold_within_rounding (emailOk : String → Bool)
    (number ciName ciEmail ciCode ciAddr : String) (ciId : Option String)
    (rawItems : List RawItem) (days : Option Int) (pd per : Option String)
    (sub rate tax tot : ℚ) (inv : InvoiceModel)
    (h : buildInvoice emailOk number ciName ciEmail ciCode ciAddr ciId
      rawItems days pd per sub rate tax tot = some inv) :
    (∀ it ∈ inv.line_items, |it.amount - it.quantity * it.rate| ≤ 3/200) ∧
    |inv.tax_amount - inv.subtotal * inv.tax_rate| ≤ 3/200 ∧
    |inv.total_amount - (inv.subtotal + inv.tax_amount)| ≤ 3/200 ∧
    (inv.line_items ≠ [] →
      |inv.subtotal - sumAmounts inv.line_items| ≤ 3/200) := by
  unfold buildInvoice at h
  cases hitems : mkInvoiceItems rawItems with
  | none => rw [hitems] at h; cases h
  | some items =>
    rw [hitems] at h
    cases hci : mkInvoiceClientInfoModel emailOk ciName ciEmail ciCode
        ciAddr ciId with
    | none => rw [hci] at h; cases h
    | some ci =>
      rw [hci] at h
      obtain ⟨hinv, hsub, htax, htot⟩ := mkInvoiceModel_some_inv h
      subst hinv
      refine ⟨?_, ?_, ?_, ?_⟩
      · intro it hit
        obtain ⟨r, hr⟩ := mkInvoiceItems_mem hitems it hit
        obtain ⟨hit_eq, hclose⟩ := mkInvoiceItemModel_some_inv hr
        subst hit_eq
        have hd := round2_dist r.amount
        calc |round2 r.amount - r.quantity * r.rate|
            ≤ |round2 r.amount - r.amount| + |r.amount - r.quantity * r.rate| :=
              abs_sub_le _ _ _
          _ ≤ 1/200 + 1/100 := add_le_add hd hclose
          _ = 3/200 := by norm_num
      · have hd := round2_dist tax
        calc |round2 tax - round2 sub * rate|
            ≤ |round2 tax - tax| + |tax - round2 sub * rate| :=
              abs_sub_le _ _ _
          _ ≤ 1/200 + 1/100 := add_le_add hd htax
          _ = 3/200 := by norm_num
      · have hd := round2_dist tot
        calc |round2 tot - (round2 sub + round2 tax)|
            ≤ |round2 tot - tot| + |tot - (round2 sub + round2 tax)| :=
              abs_sub_le _ _ _
          _ ≤ 1/200 + 1/100 := add_le_add hd htot
          _ = 3/200 := by norm_num
      · intro hne
        have hd := round2_dist sub
        calc |round2 sub - sumAmounts items|
            ≤ |round2 sub - sub| + |sub - sumAmounts items| :=
              abs_sub_le _ _ _
          _ ≤ 1/200 + 1/100 := add_le_add hd (hsub hne)
          _ = 3/200 := by norm_num

theorem invoice_equations_hold_within_rounding_witness :
    (∀ it ∈ InvoiceModel.line_items ⟨"INV-001",
        ⟨"Test Client", "client@test.com", "TST", "", none⟩,
        [⟨"Consulting services", 10, "days", 800, 8000⟩], none, none, none,
        8000, 0, 0, 8000⟩,
      |it.amount - it.quantity * it.rate| ≤ 3/200) ∧
    |(0:ℚ) - 8000 * 0| ≤ 3/200 ∧
    |(8000:ℚ) - (8000 + 0)| ≤ 3/200 ∧
    (([⟨"Consulting services", 10, "days", 800, 8000⟩] :
        List InvoiceItemModel) ≠ [] →
      |(8000:ℚ) - sumAmounts [⟨"Consulting services", 10, "days", 800, 8000⟩]| ≤
        3/200) := by
  have h8000 : round2 (8000:ℚ) = 8000 := by
    rw [round2_eq_down 8000 800000 (by norm_num) (by norm_num)]
    norm_num
  have h0 : round2 (0:ℚ) = 0 := by
    rw [round2_eq_down 0 0 (by norm_num) (by norm_num)]
    norm_num
  have hitem := mkInvoiceItemModel_eq_some "Consulting services" 10 "days"
    800 8000 (by decide) (by norm_num) (by norm_num) (by norm_num)
    (by rw [abs_sub_le_iff]; constructor <;> norm_num)
  rw [h8000] at hitem
  have hitems : mkInvoiceItems
      [⟨"Consulting services", 10, "days", 800, 8000⟩] =
      some [⟨"Consulting services", 10, "days", 800, 8000⟩] := by
    simp only [mkInvoiceItems, hitem]
  have hci := mkInvoiceClientInfoModel_eq_some (fun _ => true) "Test Client"
    "client@test.com" "TST" "" none (by decide) rfl (by decide) (by decide)
  have hmk := mkInvoiceModel_eq_some "INV-001"
    ⟨"Test Client", "client@test.com", "TST", "", none⟩
    [⟨"Consulting services", 10, "days", 800, 8000⟩] none none none
    8000 0 0 8000
    (by decide) (by decide) (by norm_num)
    (fun hcontra => hcontra.2 (by
      simp only [sumAmounts, List.map_cons, List.map_nil, List.sum_cons,
        List.sum_nil]
      rw [abs_sub_le_iff]
      constructor <;> norm_num))
    (by norm_num) (by norm_num)
    (by rw [h8000]; norm_num)
    (by norm_num)
    (by rw [h8000, h0]; rw [abs_sub_le_iff]; constructor <;> norm_num)
  rw [h8000, h0] at hmk
  have hbuild : buildInvoice (fun _ => true) "INV-001" "Test Client"
      "client@test.com" "TST" "" none
      [⟨"Consulting services", 10, "days", 800, 8000⟩] none none none
      8000 0 0 8000 =
      some ⟨"INV-001", ⟨"Test Client", "client@test.com", "TST", "", none⟩,
        [⟨"Consulting services", 10, "days", 800, 8000⟩], none, none, none,
        8000, 0, 0, 8000⟩ := by
    simp only [buildInvoice, hitems, hci]
    exact hmk
  exact invoice_equations_hold_within_rounding (fun _ => true) "INV-001"
    "Test Client" "client@test.com" "TST" "" none
    [⟨"Consulting services", 10, "days", 800, 8000⟩] none none none
    8000 0 0 8000
    ⟨"INV-001", ⟨"Test Client", "client@test.com", "TST", "", none⟩,
      [⟨"Consulting services", 10, "days", 800, 8000⟩], none, none, none,
      8000, 0, 0, 8000⟩ hbuild

/-! ## Claim C7 — `dict_to_invoice_model` totals -/

/-- Full evaluation of `dict_to_invoice_model` on a minimal invoice dict
with positive `days_worked` and a tax rate in `[0, 1]`: construction always
succeeds, and each financial field is the raw product/sum rounded to two
decimals (`subtotal` from `days × hours/day × rate`, `tax` from the **raw**
subtotal times the tax rate, `total` from the raw subtotal plus the raw
tax). -/
theorem dictToInvoiceModel_eval (emailOk : String → Bool)
    (hoursPerDay hourlyRate taxRate : ℚ) (days : Int)
    (hd : 0 < days) (hh : 0 < hoursPerDay) (hr : 0 < hourlyRate)
    (ht0 : 0 ≤ taxRate) (ht1 : taxRate ≤ 1)
    (hemail : emailOk "client@example.com" = true) :
    dictToInvoiceModel emailOk hoursPerDay hourlyRate
      { days_worked := days, tax_rate := taxRate } =
    some ⟨"INV-001",
      ⟨"Unknown Client", "client@example.com", "UNK", "", none⟩,
      [⟨"Consulting services for " ++ "this month", (days:ℚ), "days",
        hourlyRate * hoursPerDay,
        round2 ((days:ℚ) * hoursPerDay * hourlyRate)⟩],
      some days, none, none,
      round2 ((days:ℚ) * hoursPerDay * hourlyRate), taxRate,
      round2 ((days:ℚ) * hoursPerDay * hourlyRate * taxRate),
      round2 ((days:ℚ) * hoursPerDay * hourlyRate +
        (days:ℚ) * hoursPerDay * hourlyRate * taxRate)⟩ := by
  have hdq : (0:ℚ) < (days:ℚ) := by exact_mod_cast hd
  have hq : (0:ℚ) < (days:ℚ) * hoursPerDay * hourlyRate :=
    mul_pos (mul_pos hdq hh) hr
  have hrd := round2_dist ((days:ℚ) * hoursPerDay * hourlyRate)
  have hrdt := round2_dist ((days:ℚ) * hoursPerDay * hourlyRate * taxRate)
  have hitem := mkInvoiceItemModel_eq_some
    ("Consulting services for " ++ "this month") (days:ℚ) "days"
    (hourlyRate * hoursPerDay) ((days:ℚ) * hoursPerDay * hourlyRate)
    (by decide) hdq (mul_pos hr hh) (le_of_lt hq)
    (by
      rw [show (days:ℚ) * hoursPerDay * hourlyRate -
        (days:ℚ) * (hourlyRate * hoursPerDay) = 0 by ring, abs_zero]
      norm_num)
  have hci := mkInvoiceClientInfoModel_eq_some emailOk "Unknown Client"
    "client@example.com" "UNK" "" none (by decide) hemail (by decide)
    (by decide)
  have hmk := mkInvoiceModel_eq_some "INV-001"
    ⟨"Unknown Client", "client@example.com", "UNK", "", none⟩
    [⟨"Consulting services for " ++ "this month", (days:ℚ), "days",
      hourlyRate * hoursPerDay,
      round2 ((days:ℚ) * hoursPerDay * hourlyRate)⟩]
    (some days) none none
    ((days:ℚ) * hoursPerDay * hourlyRate) taxRate
    ((days:ℚ) * hoursPerDay * hourlyRate * taxRate)
    ((days:ℚ) * hoursPerDay * hourlyRate +
      (days:ℚ) * hoursPerDay * hourlyRate * taxRate)
    (by decide)
    (decide_eq_true (le_of_lt hd))
    (le_of_lt hq)
    (fun hcontra => hcontra.2 (by
      simp only [sumAmounts, List.map_cons, List.map_nil, List.sum_cons,
        List.sum_nil, add_zero]
      rw [abs_sub_comm]
      linarith))
    ⟨ht0, ht1⟩
    (mul_nonneg (le_of_lt hq) ht0)
    (by
      rw [show (days:ℚ) * hoursPerDay * hourlyRate * taxRate -
          round2 ((days:ℚ) * hoursPerDay * hourlyRate) * taxRate =
          ((days:ℚ) * hoursPerDay * hourlyRate -
            round2 ((days:ℚ) * hoursPerDay * hourlyRate)) * taxRate by ring,
        abs_mul]
      have h1 : |(days:ℚ) * hoursPerDay * hourlyRate -
          round2 ((days:ℚ) * hoursPerDay * hourlyRate)| ≤ 1/200 := by
        rw [abs_sub_comm]
        exact hrd
      have h2 : |taxRate| ≤ 1 := by
        rw [abs_of_nonneg ht0]
        exact ht1
      calc |(days:ℚ) * hoursPerDay * hourlyRate -
            round2 ((days:ℚ) * hoursPerDay * hourlyRate)| * |taxRate|
          ≤ 1/200 * 1 := mul_le_mul h1 h2 (abs_nonneg _) (by norm_num)
        _ ≤ 1/100 := by norm_num)
    (add_nonneg (le_of_lt hq) (mul_nonneg (le_of_lt hq) ht0))
    (by
      rw [show (days:ℚ) * hoursPerDay * hourlyRate +
          (days:ℚ) * hoursPerDay * hourlyRate * taxRate -
          (round2 ((days:ℚ) * hoursPerDay * hourlyRate) +
            round2 ((days:ℚ) * hoursPerDay * hourlyRate * taxRate)) =
          ((days:ℚ) * hoursPerDay * hourlyRate -
            round2 ((days:ℚ) * hoursPerDay * hourlyRate)) +
          ((days:ℚ) * hoursPerDay * hourlyRate * taxRate -
            round2 ((days:ℚ) * hoursPerDay * hourlyRate * taxRate)) by ring]
      calc |((days:ℚ) * hoursPerDay * hourlyRate -
            round2 ((days:ℚ) * hoursPerDay * hourlyRate)) +
            ((days:ℚ) * hoursPerDay * hourlyRate * taxRate -
              round2 ((days:ℚ) * hoursPerDay * hourlyRate * taxRate))|
          ≤ |(days:ℚ) * hoursPerDay * hourlyRate -
              round2 ((days:ℚ) * hoursPerDay * hourlyRate)| +
            |(days:ℚ) * hoursPerDay * hourlyRate * taxRate -
              round2 ((days:ℚ) * hoursPerDay * hourlyRate * taxRate)| :=
            abs_add _ _
        _ ≤ 1/200 + 1/200 := by
            rw [abs_sub_comm, abs_sub_comm ((days:ℚ) * hoursPerDay *
              hourlyRate * taxRate)]
            exact add_le_add hrd hrdt
        _ = 1/100 := by norm_num)
  have hline : (if 0 < days then
      (mkInvoiceItemModel
        ("Consulting services for " ++ "this month") (days:ℚ) "days"
        (hourlyRate * hoursPerDay)
        ((days:ℚ) * hoursPerDay * hourlyRate)).map (fun it => [it])
      else some []) =
      some [⟨"Consulting services for " ++ "this month", (days:ℚ), "days",
        hourlyRate * hoursPerDay,
        round2 ((days:ℚ) * hoursPerDay * hourlyRate)⟩] := by
    rw [if_pos hd, hitem]
    rfl
  simp only [dictToInvoiceModel, Option.getD_none, hline, hci]
  exact hmk

/-- C7 (counterexample): at `hoursPerDay = 1`, `hourlyRate = 2.0102`,
`daysWorked = 1`, `taxRate = 0.5`, `dict_to_invoice_model` succeeds with
stored `subtotal = 2.01` and stored `tax_amount = round(1.0051, 2) = 1.01`,
while the claim's formula `round(subtotal × taxRate, 2)` over the
constructed invoice's (rounded) subtotal gives `round(2.01 × 0.5, 2) =
round(1.005, 2) = 1.00` (banker's rounding): the code rounds the raw
product, not the product of the rounded subtotal. -/
theorem dict_invoice_tax_breaks_rounded_subtotal_formula :
    dictToInvoiceModel (fun _ => true) 1 (10051/5000)
      { days_worked := 1, tax_rate := 1/2 } =
    some ⟨"INV-001",
      ⟨"Unknown Client", "client@example.com", "UNK", "", none⟩,
      [⟨"Consulting services for " ++ "this month", 1, "days",
        10051/5000 * 1, 201/100⟩],
      some 1, none, none, 201/100, 1/2, 101/100, 151/50⟩ ∧
    ¬ ((101:ℚ)/100 = round2 ((201:ℚ)/100 * (1/2))) := by
  constructor
  · have h := dictToInvoiceModel_eval (fun _ => true) 1 (10051/5000) (1/2) 1
      (by norm_num) (by norm_num) (by norm_num) (by norm_num) (by norm_num)
      rfl
    rw [h]
    have hsub : round2 (((1:Int):ℚ) * 1 * (10051/5000)) = 201/100 := by
      rw [show ((1:Int):ℚ) * 1 * (10051/5000) = 10051/5000 by push_cast; ring]
      rw [round2_eq_down (10051/5000) 201 (by norm_num) (by norm_num)]
      norm_num
    have htax : round2 (((1:Int):ℚ) * 1 * (10051/5000) * (1/2)) = 101/100 := by
      rw [show ((1:Int):ℚ) * 1 * (10051/5000) * (1/2) = 10051/10000 by
        push_cast; ring]
      rw [round2_eq_up (10051/10000) 100 (by norm_num) (by norm_num)
        (by norm_num)]
      norm_num
    have htot : round2 (((1:Int):ℚ) * 1 * (10051/5000) +
        ((1:Int):ℚ) * 1 * (10051/5000) * (1/2)) = 151/50 := by
      rw [show ((1:Int):ℚ) * 1 * (10051/5000) +
        ((1:Int):ℚ) * 1 * (10051/5000) * (1/2) = 30153/10000 by
        push_cast; ring]
      rw [round2_eq_up (30153/10000) 301 (by norm_num) (by norm_num)
        (by norm_num)]
      norm_num
    rw [hsub, htax, htot]
    norm_num
  · have hhalf : round2 ((201:ℚ)/100 * (1/2)) = ((100:ℤ):ℚ) / 100 :=
      round2_eq_half_even ((201:ℚ)/100 * (1/2)) 100 (by push_cast; norm_num)
        ⟨50, by norm_num⟩
    rw [hhalf]
    norm_num

/-- C7 (amended): for positive `daysWorked`, positive `hoursPerDay` and
`hourlyRate`, and `taxRate ∈ [0,1]`, the Invoice constructed by
`dict_to_invoice_model` has `subtotal = round(d×h×r, 2)`,
`tax_amount = round((d×h×r) × taxRate, 2)` — the tax is rounded from the
**raw** subtotal product, not from the already-rounded subtotal field —
and `total_amount = round(raw subtotal + raw tax, 2)` (e.g. 20 days at
hourly rate 75 and 8 hours/day with tax 0 gives subtotal 12000.00 and
total 12000.00, see the witness). -/
theorem dict_to_invoice_totals_rounded_from_raw (emailOk : String → Bool)
    (hoursPerDay hourlyRate taxRate : ℚ) (days : Int)
    (hd : 0 < days) (hh : 0 < hoursPerDay) (hr : 0 < hourlyRate)
    (ht0 : 0 ≤ taxRate) (ht1 : taxRate ≤ 1)
    (hemail : emailOk "client@example.com" = true) :
    dictToInvoiceModel emailOk hoursPerDay hourlyRate
      { days_worked := days, tax_rate := taxRate } =
    some ⟨"INV-001",
      ⟨"Unknown Client", "client@example.com", "UNK", "", none⟩,
      [⟨"Consulting services for " ++ "this month", (days:ℚ), "days",
        hourlyRate * hoursPerDay,
        round2 ((days:ℚ) * hoursPerDay * hourlyRate)⟩],
      some days, none, none,
      round2 ((days:ℚ) * hoursPerDay * hourlyRate), taxRate,
      round2 ((days:ℚ) * hoursPerDay * hourlyRate * taxRate),
      round2 ((days:ℚ) * hoursPerDay * hourlyRate +
        (days:ℚ) * hoursPerDay * hourlyRate * taxRate)⟩ :=
  dictToInvoiceModel_eval emailOk hoursPerDay hourlyRate taxRate days
    hd hh hr ht0 ht1 hemail

theorem dict_to_invoice_totals_rounded_from_raw_witness :
    dictToInvoiceModel (fun _ => true) 8 75
      { days_worked := 20, tax_rate := 0 } =
    some ⟨"INV-001",
      ⟨"Unknown Client", "client@example.com", "UNK", "", none⟩,
      [⟨"Consulting services for " ++ "this month", 20, "days", 600, 12000⟩],
      some 20, none, none, 12000, 0, 0, 12000⟩ := by
  have h := dict_to_invoice_totals_rounded_from_raw (fun _ => true) 8 75 0 20
    (by norm_num) (by norm_num) (by norm_num) (by norm_num) (by norm_num) rfl
  rw [h]
  have h12000 : round2 (((20:Int):ℚ) * 8 * 75) = 12000 := by
    rw [show ((20:Int):ℚ) * 8 * 75 = 12000 by push_cast; ring]
    rw [round2_eq_down 12000 1200000 (by norm_num) (by norm_num)]
    norm_num
  have h0 : round2 (((20:Int):ℚ) * 8 * 75 * 0) = 0 := by
    rw [show ((20:Int):ℚ) * 8 * 75 * 0 = 0 by push_cast; ring]
    rw [round2_eq_down 0 0 (by norm_num) (by norm_num)]
    norm_num
  have htot : round2 (((20:Int):ℚ) * 8 * 75 + ((20:Int):ℚ) * 8 * 75 * 0) =
      12000 := by
    rw [show ((20:Int):ℚ) * 8 * 75 + ((20:Int):ℚ) * 8 * 75 * 0 = 12000 by
      push_cast; ring]
    rw [round2_eq_down 12000 1200000 (by norm_num) (by norm_num)]
    norm_num
  rw [h12000, h0, htot]
  norm_num
